import Mathlib

/-!
Shallow embedding of the hex-puzzle solver (files grid.py, pieces.py,
solve.py).  The grid is an 11x11 matrix of integers stored row-major as a
list of rows; cell (x, y) lives at row y, column x, exactly as in the
source (numpy indexing grid[y, x]).  Negative indices wrap by adding 11,
mirroring numpy semantics for -11 <= i < 0; all accesses performed by the
embedded program are in bounds, so the out-of-range default never matters
on executed paths.
-/

set_option maxRecDepth 100000

namespace HexPuzzle

/-- Grid size (including hidden cells). -/
def N : Nat := 11

/-- Special values for grid cells. -/
def FREE : Int := 0
def BLOCKED : Int := -1
def HIDDEN : Int := -2
def ERROR : Int := -3
def VISITED : Int := -4

/-- The 11x11 board matrix, row-major: entry at row y, column x is cell (x, y). -/
abbrev GridMat := List (List Int)

/-- Numpy index semantics: a negative index counts from the end. -/
def idx (i : Int) : Nat := (if i < 0 then i + (N : Int) else i).toNat

/-- Raw matrix read at row i, column j (natural indices). -/
def rawGet (g : GridMat) (i j : Nat) : Int := (g.getD i []).getD j HIDDEN

/-- Read cell (x, y): numpy grid[y, x]. -/
def getCell (g : GridMat) (x y : Int) : Int := rawGet g (idx y) (idx x)

/-- Write cell (x, y): numpy grid[y, x] = v. -/
def setCell (g : GridMat) (x y : Int) (v : Int) : GridMat :=
  g.set (idx y) ((g.getD (idx y) []).set (idx x) v)

/-- numpy slice assignment grid[r, c1:c2] = v (on row r, columns c1..c2-1). -/
def setRowRange (g : GridMat) (r : Int) (c₁ c₂ : Nat) (v : Int) : GridMat :=
  (List.range (c₂ - c₁)).foldl (fun h k => setCell h (Int.ofNat (c₁ + k)) r v) g

/-- Grid.__init_grid: the base, unchanging board structure. -/
def initGrid : GridMat :=
  -- np.full((N, N), FREE)
  let g0 : GridMat := List.replicate N (List.replicate N FREE)
  -- grid[0, :] = HIDDEN ; grid[0, -6:] = BLOCKED
  let g1 := setRowRange g0 0 0 11 HIDDEN
  let g2 := setRowRange g1 0 5 11 BLOCKED
  -- for r, c in enumerate(range(4, -1, -1)):
  --   grid[r+1, :c] = HIDDEN ; grid[r+1, c] = BLOCKED ; grid[r+1, -1] = BLOCKED
  let g3 := (List.range 5).foldl (fun h r =>
    let c : Nat := 4 - r
    setCell (setCell (setRowRange h ((r : Int) + 1) 0 c HIDDEN)
      (c : Int) ((r : Int) + 1) BLOCKED) (-1) ((r : Int) + 1) BLOCKED) g2
  -- grid[-1, :] = HIDDEN ; grid[-1, :6] = BLOCKED
  let g4 := setRowRange g3 (-1) 0 11 HIDDEN
  let g5 := setRowRange g4 (-1) 0 6 BLOCKED
  -- for r, c in enumerate(range(6, 1, -1)):
  --   rr = -(r+1) ; grid[rr, -c:] = HIDDEN ; grid[rr, -c] = BLOCKED ; grid[rr, 0] = BLOCKED
  (List.range 5).foldl (fun h r =>
    let c : Nat := 6 - r
    let rr : Int := -((r : Int) + 1)
    setCell (setCell (setRowRange h rr (11 - c) 11 HIDDEN)
      (-(c : Int)) rr BLOCKED) 0 rr BLOCKED) g5

/-- Pre-computed list of allowed values for the x coordinate. -/
def allowed_xs_list : List Int := [1, 2, 3, 4, 5, 6, 7, 8, 9]

/-- Integer range [lo, hi) as a list, mirroring Python range(lo, hi). -/
def intRange (lo hi : Int) : List Int := (List.range (hi - lo).toNat).map (fun k => lo + k)

/-- Pre-computed allowed y values for each x coordinate (index x-1). -/
def allowed_ys_lists : List (List Int) :=
  allowed_xs_list.map (fun x => intRange (max (6 - x) 1) (10 - max 0 (x - 5)))

/-- Lookup of allowed_ys_lists[x-1]. -/
def ysFor (x : Int) : List Int := allowed_ys_lists.getD (x - 1).toNat []

/-- The (x, y) pairs enumerated by the nested loops over allowed_xs_list and
allowed_ys_lists, in iteration order. -/
def allowedPairs : List (Int × Int) :=
  allowed_xs_list.flatMap (fun x => (ysFor x).map (fun y => (x, y)))

/-- All 121 matrix coordinates (x, y) with 0 <= x, y < 11. -/
def allPairs121 : List (Int × Int) :=
  ((List.range N).map (Int.ofNat)).flatMap (fun y =>
    ((List.range N).map (Int.ofNat)).map (fun x => (x, y)))

/-- Grid._is_point_safe. -/
def is_point_safe (x y : Int) : Bool :=
  decide (0 ≤ x) && decide (x < (N : Int)) && decide (0 ≤ y) && decide (y < (N : Int))

/-- Grid._is_point_free (reads the given grid). -/
def is_point_free (g : GridMat) (x y : Int) : Bool :=
  is_point_safe x y && decide (getCell g x y = FREE)

/-- Grid._is_point_valid (reads the given grid). -/
def is_point_valid (g : GridMat) (x y : Int) : Bool :=
  is_point_safe x y && !(decide (getCell g x y = HIDDEN) || decide (getCell g x y = BLOCKED))

/-- Relative positions (x, y) of the 6 neighbors of a cell, in the order of
movement_dict.values(). -/
def movementList : List (Int × Int) :=
  [(1, 0), (0, 1), (-1, 1), (-1, 0), (0, -1), (1, -1)]

/-- Grid.__init_neighbors_lists, as a function: the neighbor list of a cell is
computed against the base grid (the table is built at construction time,
before any problem-specific blocked cell or piece is applied). -/
def neighborsOf (x y : Int) : List (Int × Int) :=
  (movementList.map (fun m => (x + m.1, y + m.2))).filter
    (fun p => is_point_valid initGrid p.1 p.2)

/-! ### Piece catalog (pieces.py) -/

/-- Pre-computed list of possible piece rotations. -/
def rot_list : List Nat := [0, 1, 2]

/-- The per-type movement tables: position of the five components relative to
the base component, for each of the three rotations (class attributes
Piece1.movements .. Piece12.movements).  Unknown type indices have no table. -/
def pieceMovements : Nat → List (List (Int × Int))
  | 1 => [[(0, 0), (1, 0), (2, 0), (2, 1), (3, -1)],
          [(0, 0), (-1, 1), (-2, 2), (-3, 2), (-2, 3)],
          [(0, 0), (0, -1), (0, -2), (1, -3), (-1, -2)]]
  | 2 => [[(0, 0), (0, 1), (-1, 2), (-1, 3), (-2, 3)],
          [(0, 0), (-1, 0), (-1, -1), (-2, -1), (-1, -2)],
          [(0, 0), (1, -1), (2, -1), (3, -2), (3, -1)]]
  | 3 => [[(0, 0), (1, 0), (2, 0), (2, 1), (3, 1)],
          [(0, 0), (-1, 1), (-2, 2), (-3, 2), (-4, 3)],
          [(0, 0), (0, -1), (0, -2), (1, -3), (1, -4)]]
  | 4 => [[(0, 0), (1, -1), (2, -1), (3, -1), (2, 0)],
          [(0, 0), (0, 1), (-1, 2), (-2, 3), (-2, 2)],
          [(0, 0), (-1, 0), (-1, -1), (-1, -2), (0, -2)]]
  | 5 => [[(0, 0), (1, 0), (2, 0), (3, 0), (3, -1)],
          [(0, 0), (-1, 1), (-2, 2), (-3, 3), (-2, 3)],
          [(0, 0), (0, -1), (0, -2), (0, -3), (-1, -2)]]
  | 6 => [[(0, 0), (-1, 0), (-2, 0), (-3, 1), (-4, 2)],
          [(0, 0), (1, -1), (2, -2), (2, -3), (2, -4)],
          [(0, 0), (0, 1), (0, 2), (1, 2), (2, 2)]]
  | 7 => [[(0, 0), (-1, 0), (-2, 0), (-2, 1), (-3, 2)],
          [(0, 0), (1, -1), (2, -2), (1, -2), (1, -3)],
          [(0, 0), (0, 1), (0, 2), (1, 1), (2, 1)]]
  | 8 => [[(0, 0), (0, 1), (1, 1), (2, 1), (3, 1)],
          [(0, 0), (-1, 0), (-2, 1), (-3, 2), (-4, 3)],
          [(0, 0), (1, -1), (1, -2), (1, -3), (1, -4)]]
  | 9 => [[(0, 0), (0, 1), (-1, 1), (-1, 2), (-1, 3)],
          [(0, 0), (-1, 0), (0, -1), (-1, -1), (-2, -1)],
          [(0, 0), (1, -1), (1, 0), (2, -1), (3, -2)]]
  | 10 => [[(0, 0), (1, 0), (1, 1), (2, 1), (1, 2)],
           [(0, 0), (-1, 1), (-2, 1), (-3, 2), (-3, 1)],
           [(0, 0), (0, -1), (1, -2), (1, -3), (2, -3)]]
  | 11 => [[(0, 0), (1, 0), (2, -1), (2, 0), (2, 1)],
           [(0, 0), (-1, 1), (-1, 2), (-2, 2), (-3, 2)],
           [(0, 0), (0, -1), (-1, -1), (0, -2), (1, -3)]]
  | 12 => [[(0, 0), (1, 0), (0, 1), (1, 1), (2, 1)],
           [(0, 0), (-1, 1), (-1, 0), (-2, 1), (-3, 2)],
           [(0, 0), (0, -1), (1, -1), (1, -2), (1, -3)]]
  | _ => []

/-- A concrete piece: type index, base coordinates and rotation.  The
constructor normalizes the rotation modulo 3 (Piece.__init__). -/
structure Piece where
  pieceType : Nat
  base_x : Int
  base_y : Int
  rotation : Nat
  deriving DecidableEq, Repr

/-- Piece.__init__(index, base_x, base_y, rotation): rotation is stored mod 3. -/
def mkPiece (ty : Nat) (bx by_ : Int) (rot : Nat) : Piece :=
  ⟨ty, bx, by_, rot % 3⟩

/-- Piece.index: the value written into occupied grid cells. -/
def Piece.index (p : Piece) : Int := (p.pieceType : Int)

/-- Piece.__make_coords / Piece.points: concrete coordinates of the piece
components. -/
def Piece.points (p : Piece) : List (Int × Int) :=
  ((pieceMovements p.pieceType).getD p.rotation []).map
    (fun m => (p.base_x + m.1, p.base_y + m.2))

/-- Piece.make_new(x, y, rot): same piece type at new base and rotation. -/
def Piece.make_new (p : Piece) (x y : Int) (rot : Nat) : Piece :=
  mkPiece p.pieceType x y rot

/-- get_piece(idx): a fresh piece of type idx at base (0, 0), rotation 0. -/
def get_piece (ty : Nat) : Piece := mkPiece ty 0 0 0

def NUM_PIECES : Nat := 12

/-! ### Grid mutation operations (grid.py) -/

/-- Grid.add_piece: the piece is inserted (each component cell receives the
piece index) iff all component cells are currently free; otherwise the grid
is unchanged and False is returned. -/
def add_piece (g : GridMat) (p : Piece) : Bool × GridMat :=
  if p.points.all (fun q => is_point_free g q.1 q.2) then
    (true, p.points.foldl (fun h q => setCell h q.1 q.2 p.index) g)
  else
    (false, g)

/-- Grid.add_pieces: insert pieces in order, stopping at the first failure. -/
def add_pieces (g : GridMat) : List Piece → Bool × GridMat
  | [] => (true, g)
  | p :: rest =>
    let r := add_piece g p
    if r.1 then add_pieces r.2 rest else (false, r.2)

/-- Grid.remove_piece: unconditionally reset the component cells to FREE. -/
def remove_piece (g : GridMat) (p : Piece) : GridMat :=
  p.points.foldl (fun h q => setCell h q.1 q.2 FREE) g

/-! ### Feasibility check (Grid.is_impossible)

The search loop of is_impossible is a stack-driven depth-first flood fill.
The Python stack pops from the end, so the Lean stack keeps the top at the
head and an extend pushes the reversed neighbor list. -/

/-- Number of FREE cells of the whole matrix (used as termination measure). -/
def freeCountAll (g : GridMat) : Nat :=
  (g.map (fun row => row.countP (fun v => v == FREE))).sum

theorem countP_set_of_true_false {l : List Int} {i : Nat} {p : Int → Bool} {b : Int}
    (h : i < l.length) (hv : p (l.getD i HIDDEN) = true) (hb : p b = false) :
    (l.set i b).countP p + 1 = l.countP p := by
  induction l generalizing i with
  | nil => simp at h
  | cons a t ih =>
    cases i with
    | zero =>
      simp only [List.getD_cons_zero] at hv
      simp [List.countP_cons, hv, hb]
    | succ j =>
      simp only [List.length_cons, Nat.succ_lt_succ_iff] at h
      simp only [List.getD_cons_succ] at hv
      simp only [List.set_cons_succ, List.countP_cons]
      have := ih h hv
      omega

theorem sum_map_set {g : GridMat} {i : Nat} (f : List Int → Nat) (h : i < g.length)
    (r : List Int) :
    ((g.set i r).map f).sum + f (g.getD i []) = (g.map f).sum + f r := by
  induction g generalizing i with
  | nil => simp at h
  | cons a t ih =>
    cases i with
    | zero => simp [Nat.add_comm, Nat.add_left_comm]
    | succ j =>
      simp only [List.length_cons, Nat.succ_lt_succ_iff] at h
      simp only [List.set_cons_succ, List.map_cons, List.sum_cons, List.getD_cons_succ]
      have := ih h
      omega

theorem getCell_pos (g : GridMat) (x y : Int) (h : getCell g x y ≠ HIDDEN) :
    idx y < g.length ∧ idx x < (g.getD (idx y) []).length := by
  by_cases hy : idx y < g.length
  · refine ⟨hy, ?_⟩
    by_cases hx : idx x < (g.getD (idx y) []).length
    · exact hx
    · exfalso
      apply h
      show (g.getD (idx y) []).getD (idx x) HIDDEN = HIDDEN
      exact List.getD_eq_default _ _ (Nat.le_of_not_lt hx)
  · exfalso
    apply h
    show (g.getD (idx y) []).getD (idx x) HIDDEN = HIDDEN
    rw [List.getD_eq_default _ _ (Nat.le_of_not_lt hy)]
    exact List.getD_eq_default _ _ (Nat.zero_le _)

theorem freeCountAll_set_visited {g : GridMat} {x y : Int}
    (h : getCell g x y = FREE) :
    freeCountAll (setCell g x y VISITED) + 1 = freeCountAll g := by
  have hne : getCell g x y ≠ HIDDEN := by rw [h]; decide
  obtain ⟨hy, hx⟩ := getCell_pos g x y hne
  have hrow : ((g.getD (idx y) []).set (idx x) VISITED).countP (fun v => v == FREE) + 1
      = (g.getD (idx y) []).countP (fun v => v == FREE) := by
    refine countP_set_of_true_false hx ?_ ?_
    · have hfree : (g.getD (idx y) []).getD (idx x) HIDDEN = FREE := h
      simpa using hfree
    · decide
  have hsum := sum_map_set (fun row => row.countP (fun v => v == FREE)) hy
    ((g.getD (idx y) []).set (idx x) VISITED)
  simp only [freeCountAll, setCell]
  omega

theorem length_neighborsOf_le (x y : Int) : (neighborsOf x y).length ≤ 6 := by
  have := List.length_filter_le
    (fun p : Int × Int => is_point_valid initGrid p.1 p.2)
    (movementList.map (fun m => (x + m.1, y + m.2)))
  simpa [neighborsOf, movementList] using this

/-- Termination measure of the while loop: every iteration either pops a
non-free cell, or marks one more free cell VISITED while pushing at most
six neighbors. -/
def dfsMeasure (g : GridMat) (s : List (Int × Int)) : Nat :=
  7 * freeCountAll g + s.length

/-- The while loop of Grid.is_impossible, with an explicit fuel so it is
structurally recursive: pop a cell; if it is free, count it, mark it
VISITED and push its (precomputed) neighbors.  dfsMeasure strictly
decreases at each step, so with fuel above the measure the fuel never runs
out (dfsVisitF_fuel_irrel below). -/
def dfsVisitF : Nat → GridMat → List (Int × Int) → Nat → GridMat × Nat
  | 0, g, _, c => (g, c)
  | fuel + 1, g, stack, c =>
    match stack with
    | [] => (g, c)
    | (x, y) :: rest =>
      if getCell g x y = FREE then
        dfsVisitF fuel (setCell g x y VISITED) ((neighborsOf x y).reverse ++ rest) (c + 1)
      else
        dfsVisitF fuel g rest c

/-- The while loop of Grid.is_impossible (fuel instantiated above the
measure, which never runs out). -/
def dfsVisit (g : GridMat) (s : List (Int × Int)) (c : Nat) : GridMat × Nat :=
  dfsVisitF (dfsMeasure g s + 1) g s c

theorem dfsVisitF_succ (fuel : Nat) (g : GridMat) (x y : Int)
    (rest : List (Int × Int)) (c : Nat) :
    dfsVisitF (fuel + 1) g ((x, y) :: rest) c =
      if getCell g x y = FREE then
        dfsVisitF fuel (setCell g x y VISITED) ((neighborsOf x y).reverse ++ rest) (c + 1)
      else
        dfsVisitF fuel g rest c := rfl

theorem dfsVisitF_fuel_irrel :
    ∀ (f₁ : Nat) {f₂ : Nat} (g : GridMat) (s : List (Int × Int)) (c : Nat),
      dfsMeasure g s < f₁ → dfsMeasure g s < f₂ →
      dfsVisitF f₁ g s c = dfsVisitF f₂ g s c := by
  intro f₁
  induction f₁ using Nat.strong_induction_on with
  | _ f₁ ih =>
    intro f₂ g s c h₁ h₂
    cases f₁ with
    | zero => omega
    | succ fuel =>
      cases f₂ with
      | zero => omega
      | succ fuel₂ =>
        cases s with
        | nil => rfl
        | cons hd rest =>
          obtain ⟨x, y⟩ := hd
          rw [dfsVisitF_succ, dfsVisitF_succ]
          by_cases hf : getCell g x y = FREE
          · rw [if_pos hf, if_pos hf]
            have hd := freeCountAll_set_visited hf
            have hn := length_neighborsOf_le x y
            have hm : dfsMeasure (setCell g x y VISITED)
                ((neighborsOf x y).reverse ++ rest) < fuel := by
              simp only [dfsMeasure, List.length_append, List.length_reverse,
                List.length_cons] at h₁ ⊢
              omega
            have hm₂ : dfsMeasure (setCell g x y VISITED)
                ((neighborsOf x y).reverse ++ rest) < fuel₂ := by
              simp only [dfsMeasure, List.length_append, List.length_reverse,
                List.length_cons] at h₂ ⊢
              omega
            exact ih fuel (by omega) _ _ _ hm hm₂
          · rw [if_neg hf, if_neg hf]
            have hm : dfsMeasure g rest < fuel := by
              simp only [dfsMeasure, List.length_cons] at h₁ ⊢
              omega
            have hm₂ : dfsMeasure g rest < fuel₂ := by
              simp only [dfsMeasure, List.length_cons] at h₂ ⊢
              omega
            exact ih fuel (by omega) _ _ _ hm hm₂

/-- Unfolding equation: empty stack. -/
theorem dfsVisit_nil (g : GridMat) (c : Nat) : dfsVisit g [] c = (g, c) := rfl

/-- Unfolding equation: popping a free cell. -/
theorem dfsVisit_cons_free {g : GridMat} {x y : Int} (rest : List (Int × Int)) (c : Nat)
    (hf : getCell g x y = FREE) :
    dfsVisit g ((x, y) :: rest) c
      = dfsVisit (setCell g x y VISITED) ((neighborsOf x y).reverse ++ rest) (c + 1) := by
  have hd := freeCountAll_set_visited hf
  have hn := length_neighborsOf_le x y
  show dfsVisitF (dfsMeasure g ((x, y) :: rest) + 1) g ((x, y) :: rest) c = _
  rw [dfsVisitF_succ, if_pos hf]
  apply dfsVisitF_fuel_irrel
  · simp only [dfsMeasure, List.length_append, List.length_reverse, List.length_cons] at hd ⊢
    omega
  · omega

/-- Unfolding equation: popping a non-free cell. -/
theorem dfsVisit_cons_stuck {g : GridMat} {x y : Int} (rest : List (Int × Int)) (c : Nat)
    (hf : ¬ getCell g x y = FREE) :
    dfsVisit g ((x, y) :: rest) c = dfsVisit g rest c := by
  show dfsVisitF (dfsMeasure g ((x, y) :: rest) + 1) g ((x, y) :: rest) c = _
  rw [dfsVisitF_succ, if_neg hf]
  apply dfsVisitF_fuel_irrel
  · simp only [dfsMeasure, List.length_cons]
    omega
  · omega

/-- The outer double loop of Grid.is_impossible over the allowed (x, y)
pairs, threading the scratch grid: an unvisited free cell starts a
depth-first search; a group whose size is not a multiple of 5 returns True. -/
def isImpossibleAux : List (Int × Int) → GridMat → Bool
  | [], _ => false
  | (x, y) :: rest, g =>
    if getCell g x y = FREE then
      let r := dfsVisit (setCell g x y VISITED) ((neighborsOf x y).reverse) 1
      if r.2 % 5 ≠ 0 then true else isImpossibleAux rest r.1
    else
      isImpossibleAux rest g

/-- One-step unfolding of the outer loop. -/
theorem isImpossibleAux_cons (x y : Int) (rest : List (Int × Int)) (g : GridMat) :
    isImpossibleAux ((x, y) :: rest) g =
      if getCell g x y = FREE then
        (let r := dfsVisit (setCell g x y VISITED) ((neighborsOf x y).reverse) 1
         if r.2 % 5 ≠ 0 then true else isImpossibleAux rest r.1)
      else isImpossibleAux rest g := rfl

/-- Grid.is_impossible: whether some group of connected free cells has a
size that is not a multiple of 5 (the search itself runs on a scratch copy
of the grid). -/
def is_impossible (g : GridMat) : Bool := isImpossibleAux allowedPairs g

/-- The call semantics of Grid.is_impossible on the grid field: the method
copies self.grid into the local scratch _grid, runs the search on the
scratch copy, and self.grid is left exactly as it was. -/
def is_impossible_call (g : GridMat) : Bool × GridMat :=
  let scratch := g
  (isImpossibleAux allowedPairs scratch, g)

/-- n successive calls of Grid.is_impossible on the grid field. -/
def is_impossible_iter : Nat → GridMat → GridMat
  | 0, g => g
  | n + 1, g => is_impossible_iter n (is_impossible_call g).2

/-! ### Solver (solve.py) -/

/-- Placeholder piece: pieces[index] is only read when index < len(pieces),
so the default of the embedded list lookup is never the value used. -/
def dummyPiece : Piece := ⟨0, 0, 0, 0⟩

/-- Innermost loop of solve_recursive (for y in allowed_ys_lists[x-1]):
try each candidate; on add success run the recursive call k; if it
succeeds commit pieces[i] and return; if it fails remove the piece and
continue. -/
def tryYs (k : GridMat → List Piece → Bool × GridMat × List Piece)
    (tmpl : Piece) (i : Nat) (rot : Nat) (x : Int) :
    List Int → GridMat → List Piece → Bool × GridMat × List Piece
  | [], g, ps => (false, g, ps)
  | y :: ys, g, ps =>
    let piece := tmpl.make_new x y rot
    let r := add_piece g piece
    if r.1 then
      let s := k r.2 ps
      if s.1 then (true, s.2.1, s.2.2.set i piece)
      else tryYs k tmpl i rot x ys (remove_piece s.2.1 piece) s.2.2
    else tryYs k tmpl i rot x ys g ps

/-- Middle loop of solve_recursive (for x in allowed_xs_list). -/
def tryXs (k : GridMat → List Piece → Bool × GridMat × List Piece)
    (tmpl : Piece) (i : Nat) (rot : Nat) :
    List Int → GridMat → List Piece → Bool × GridMat × List Piece
  | [], g, ps => (false, g, ps)
  | x :: xs, g, ps =>
    let r := tryYs k tmpl i rot x (ysFor x) g ps
    if r.1 then r else tryXs k tmpl i rot xs r.2.1 r.2.2

/-- Outer loop of solve_recursive (for rot in rot_list). -/
def tryRots (k : GridMat → List Piece → Bool × GridMat × List Piece)
    (tmpl : Piece) (i : Nat) :
    List Nat → GridMat → List Piece → Bool × GridMat × List Piece
  | [], g, ps => (false, g, ps)
  | rot :: rots, g, ps =>
    let r := tryXs k tmpl i rot allowed_xs_list g ps
    if r.1 then r else tryRots k tmpl i rots r.2.1 r.2.2

/-- solve_recursive, structured by the number of pieces still to place
(len(pieces) - index, the quantity the recursion decreases).  Fuel 0 is
the terminal index == len(pieces) test of the source; the function is only
ever entered with index <= len(pieces). -/
def solveAux : Nat → GridMat → List Piece → Nat → Nat → Bool × GridMat × List Piece
  | 0, g, ps, _, _ => (true, g, ps)
  | n + 1, g, ps, i, check_at =>
    if check_at ≤ i ∧ is_impossible g = true then (false, g, ps)
    else tryRots (fun g2 ps2 => solveAux n g2 ps2 (i + 1) check_at)
      (ps.getD i dummyPiece) i rot_list g ps

/-- solve_recursive(grid, pieces, index, check_at): returns the solved flag
together with the final grid and pieces list (the source mutates both in
place). -/
def solve_recursive (g : GridMat) (ps : List Piece) (i : Nat) (check_at : Nat) :
    Bool × GridMat × List Piece :=
  solveAux (ps.length - i) g ps i check_at

/-- The grid part of prepare_problem: the blocked cells of the problem
configuration are written directly into the fresh grid. -/
def apply_blocked (blocked : List (Int × Int)) : GridMat :=
  blocked.foldl (fun g p => setCell g p.1 p.2 BLOCKED) initGrid

/-- prepare_problem: build the starting grid from the blocked-cell list and
the piece list from the excluded indices; the assertion
(assert not grid.is_impossible()) makes the call fail (None) on an
infeasible initial configuration. -/
def prepare_problem (blocked : List (Int × Int)) (excluded : List Nat) :
    Option (GridMat × List Piece) :=
  let g := apply_blocked blocked
  if is_impossible g then none
  else some (g, (((List.range NUM_PIECES).map (· + 1)).filter
    (fun i => decide (i ∉ excluded))).map get_piece)

/-! ### Specification-side definitions.

These are written from the specification text, not from the source: they
are the abstract notions the code-side functions are compared against. -/

/-- Modelled from the spec: one flood-fill step between free cells, along
the precomputed 6-neighbor table. -/
def stepRel (g : GridMat) (a b : Int × Int) : Prop :=
  b ∈ neighborsOf a.1 a.2 ∧ getCell g b.1 b.2 = FREE

/-- Modelled from the spec: connectivity of free cells via the neighbor
table. -/
def Reach (g : GridMat) (a b : Int × Int) : Prop :=
  Relation.ReflTransGen (stepRel g) a b

/-- Modelled from the spec: the connected component of a free cell. -/
def component (g : GridMat) (c : Int × Int) : Set (Int × Int) :=
  {b | Reach g c b}

/-- Modelled from the spec: the candidate placements for one piece in the
fixed deterministic order: rotation-major, then the allowed x columns, then
the column-dependent allowed y rows. -/
def specCandidates : List (Nat × Int × Int) :=
  rot_list.flatMap (fun rot =>
    allowed_xs_list.flatMap (fun x => (ysFor x).map (fun y => (rot, x, y))))

/-- Modelled from the spec: linear first-found scan over a flat candidate
list — attempt try_place on each candidate; on success recurse; a
successful recursion keeps the placement (pieces[i] := piece) and returns
success immediately; a failed recursion removes the placement and
continues. -/
def specSearch (k : GridMat → List Piece → Bool × GridMat × List Piece)
    (tmpl : Piece) (i : Nat) :
    List (Nat × Int × Int) → GridMat → List Piece → Bool × GridMat × List Piece
  | [], g, ps => (false, g, ps)
  | (rot, x, y) :: cs, g, ps =>
    let piece := tmpl.make_new x y rot
    let r := add_piece g piece
    if r.1 then
      let s := k r.2 ps
      if s.1 then (true, s.2.1, s.2.2.set i piece)
      else specSearch k tmpl i cs (remove_piece s.2.1 piece) s.2.2
    else specSearch k tmpl i cs g ps

/-! ### Derived counters and side conditions -/

/-- Number of board cells (the 121 matrix positions) currently FREE. -/
def countFree (g : GridMat) : Nat :=
  allPairs121.countP (fun p => decide (getCell g p.1 p.2 = FREE))

/-- In-bounds coordinates, as a proposition. -/
def SafeP (p : Int × Int) : Prop :=
  0 ≤ p.1 ∧ p.1 < (N : Int) ∧ 0 ≤ p.2 ∧ p.2 < (N : Int)

instance : DecidablePred SafeP := fun p => by unfold SafeP; infer_instance

/-- All free cells of the matrix sit in the playable region (true of every
grid reachable through the Grid interface). -/
def freeOnlyAllowed (g : GridMat) : Prop :=
  ∀ p ∈ allPairs121, getCell g p.1 p.2 = FREE → p ∈ allowedPairs

instance (g : GridMat) : Decidable (freeOnlyAllowed g) := by
  unfold freeOnlyAllowed; infer_instance

/-- Matching shapes of backing matrices. -/
def sameShape (g h : GridMat) : Prop :=
  g.length = h.length ∧ ∀ i, (g.getD i []).length = (h.getD i []).length

/-! ### Lemmas: cell access -/

theorem safeP_iff_mem121 (p : Int × Int) : SafeP p ↔ p ∈ allPairs121 := by
  obtain ⟨x, y⟩ := p
  simp only [SafeP, allPairs121, List.mem_flatMap, List.mem_map, List.mem_range]
  constructor
  · rintro ⟨hx0, hxN, hy0, hyN⟩
    refine ⟨y, ⟨y.toNat, ?_, Int.toNat_of_nonneg hy0⟩,
      x, ⟨x.toNat, ?_, Int.toNat_of_nonneg hx0⟩, rfl⟩
    · simp only [N] at hyN ⊢
      omega
    · simp only [N] at hxN ⊢
      omega
  · rintro ⟨b, ⟨jb, hjb, rfl⟩, a, ⟨ja, hja, rfl⟩, he⟩
    have hx : x = Int.ofNat ja := (congrArg Prod.fst he).symm
    have hy : y = Int.ofNat jb := (congrArg Prod.snd he).symm
    subst hx
    subst hy
    simp only [N] at hja hjb
    simp only [Int.ofNat_eq_natCast, N]
    refine ⟨by omega, by omega, by omega, by omega⟩

theorem idx_of_safe {a : Int} (h0 : 0 ≤ a) : idx a = a.toNat := by
  simp only [idx, if_neg (by omega : ¬ a < 0)]

theorem safe_eq_of_idx_eq {p q : Int × Int} (hp : SafeP p) (hq : SafeP q)
    (h1 : idx p.1 = idx q.1) (h2 : idx p.2 = idx q.2) : p = q := by
  obtain ⟨hx0, _, hy0, _⟩ := hp
  obtain ⟨hx0q, _, hy0q, _⟩ := hq
  rw [idx_of_safe hx0, idx_of_safe hx0q] at h1
  rw [idx_of_safe hy0, idx_of_safe hy0q] at h2
  have : p.1 = q.1 := by omega
  have : p.2 = q.2 := by omega
  exact Prod.ext (by omega) (by omega)

/-- Row-level description of setCell: the target row (and only it) gets
the column update; out-of-range rows make both sides empty. -/
theorem getD_setCell_row (g : GridMat) (x y v : Int) (i : Nat) :
    (setCell g x y v).getD i []
      = if i = idx y then (g.getD i []).set (idx x) v else g.getD i [] := by
  by_cases hi : i = idx y
  · subst hi
    rw [if_pos rfl]
    by_cases hlen : idx y < g.length
    · simp only [setCell, List.getD_eq_getElem?_getD, List.getElem?_set_eq_of_lt _ hlen,
        Option.getD_some]
    · have h1 : g[idx y]? = none := List.getElem?_eq_none (Nat.le_of_not_lt hlen)
      simp only [setCell, List.getD_eq_getElem?_getD, List.getElem?_set_self', h1,
        Option.map_eq_map, Option.map_none', Option.getD_none, List.set_nil]
  · rw [if_neg hi]
    simp only [setCell, List.getD_eq_getElem?_getD,
      List.getElem?_set_ne (fun he => hi he.symm)]

theorem rawGet_setCell_ne (g : GridMat) (x y v : Int) {i j : Nat}
    (h : i ≠ idx y ∨ j ≠ idx x) :
    rawGet (setCell g x y v) i j = rawGet g i j := by
  simp only [rawGet, getD_setCell_row]
  rcases h with h | h
  · rw [if_neg h]
  · by_cases hi : i = idx y
    · rw [if_pos hi, List.getD_eq_getElem?_getD,
        List.getElem?_set_ne (fun he => h he.symm), ← List.getD_eq_getElem?_getD]
    · rw [if_neg hi]

theorem rawGet_setCell_self (g : GridMat) (x y v : Int)
    (hy : idx y < g.length) (hx : idx x < (g.getD (idx y) []).length) :
    rawGet (setCell g x y v) (idx y) (idx x) = v := by
  simp only [rawGet]
  rw [getD_setCell_row, if_pos rfl, List.getD_eq_getElem?_getD,
    List.getElem?_set_eq_of_lt _ hx, Option.getD_some]

theorem sameShape_refl (g : GridMat) : sameShape g g := ⟨rfl, fun _ => rfl⟩

theorem sameShape_trans {g h k : GridMat} (h1 : sameShape g h) (h2 : sameShape h k) :
    sameShape g k := ⟨h1.1.trans h2.1, fun i => (h1.2 i).trans (h2.2 i)⟩

theorem sameShape_setCell (g : GridMat) (x y v : Int) :
    sameShape (setCell g x y v) g := by
  refine ⟨by simp [setCell], fun i => ?_⟩
  rw [getD_setCell_row]
  by_cases hi : i = idx y
  · rw [if_pos hi, List.length_set]
  · rw [if_neg hi]

theorem gridExt {g h : GridMat} (hs : sameShape g h)
    (hc : ∀ i j, rawGet g i j = rawGet h i j) : g = h := by
  apply List.ext_getElem hs.1
  intro i hi hih
  apply List.ext_getElem
  · have := hs.2 i
    rwa [List.getD_eq_getElem _ _ hi, List.getD_eq_getElem _ _ hih] at this
  · intro j hj hjh
    have := hc i j
    rwa [rawGet, rawGet, List.getD_eq_getElem _ _ hi, List.getD_eq_getElem _ _ hih,
      List.getD_eq_getElem _ _ hj, List.getD_eq_getElem _ _ hjh] at this

theorem getCell_eq_rawGet (g : GridMat) (x y : Int) :
    getCell g x y = rawGet g (idx y) (idx x) := rfl

/-- Writing at in-bounds coordinates (any cell whose current value is not
the out-of-bounds default) and reading the same coordinates gives the
written value. -/
theorem getCell_setCell_self {g : GridMat} {x y : Int} (v : Int)
    (h : getCell g x y ≠ HIDDEN) :
    getCell (setCell g x y v) x y = v := by
  obtain ⟨hy, hx⟩ := getCell_pos g x y h
  exact rawGet_setCell_self g x y v hy hx

/-- Writing one cell leaves every other in-bounds cell unchanged. -/
theorem getCell_setCell_ne {g : GridMat} {p q : Int × Int} (v : Int)
    (hp : SafeP p) (hq : SafeP q) (hne : p ≠ q) :
    getCell (setCell g q.1 q.2 v) p.1 p.2 = getCell g p.1 p.2 := by
  apply rawGet_setCell_ne
  by_contra hcon
  push_neg at hcon
  exact hne (safe_eq_of_idx_eq hp hq hcon.2 hcon.1)

/-- Master description of a fold of cell writes with one value: it sets
exactly the listed cells (all in bounds and distinct from the default)
to v and leaves the rest of the matrix untouched. -/
theorem rawGet_foldl_set (v : Int) (hv : v ≠ HIDDEN) :
    ∀ (pts : List (Int × Int)) (g : GridMat),
      (∀ p ∈ pts, SafeP p ∧ getCell g p.1 p.2 ≠ HIDDEN) →
      ∀ i j, rawGet (pts.foldl (fun h q => setCell h q.1 q.2 v) g) i j
        = if ∃ p ∈ pts, idx p.2 = i ∧ idx p.1 = j then v else rawGet g i j := by
  intro pts
  induction pts with
  | nil => intro g _ i j; simp
  | cons p rest ih =>
    intro g hpts i j
    have hp := hpts p (List.mem_cons_self p rest)
    have hrest : ∀ q ∈ rest, SafeP q ∧ getCell (setCell g p.1 p.2 v) q.1 q.2 ≠ HIDDEN := by
      intro q hq
      obtain ⟨hqs, hqh⟩ := hpts q (List.mem_cons_of_mem _ hq)
      refine ⟨hqs, ?_⟩
      by_cases hqp : q = p
      · subst hqp
        rw [getCell_setCell_self v hqh]
        exact hv
      · rw [getCell_setCell_ne v hqs hp.1 hqp]
        exact hqh
    simp only [List.foldl_cons]
    rw [ih (setCell g p.1 p.2 v) hrest i j]
    by_cases hmem : ∃ q ∈ rest, idx q.2 = i ∧ idx q.1 = j
    · rw [if_pos hmem, if_pos ⟨hmem.choose, List.mem_cons_of_mem _ hmem.choose_spec.1,
        hmem.choose_spec.2⟩]
    · rw [if_neg hmem]
      by_cases hph : idx p.2 = i ∧ idx p.1 = j
      · rw [if_pos ⟨p, List.mem_cons_self p rest, hph⟩]
        obtain ⟨h2, h1⟩ := hph
        subst h2; subst h1
        obtain ⟨hy, hx⟩ := getCell_pos g p.1 p.2 hp.2
        exact rawGet_setCell_self g p.1 p.2 v hy hx
      · have hno : ¬ ∃ q ∈ p :: rest, idx q.2 = i ∧ idx q.1 = j := by
          rintro ⟨q, hqm, hqi⟩
          rcases List.mem_cons.mp hqm with rfl | hqr
          · exact hph hqi
          · exact hmem ⟨q, hqr, hqi⟩
        rw [if_neg hno]
        apply rawGet_setCell_ne
        by_contra hcon
        push_neg at hcon
        exact hph ⟨hcon.1.symm, hcon.2.symm⟩

theorem sameShape_foldl_set (v : Int) :
    ∀ (pts : List (Int × Int)) (g : GridMat),
      sameShape (pts.foldl (fun h q => setCell h q.1 q.2 v) g) g := by
  intro pts
  induction pts with
  | nil => intro g; exact sameShape_refl g
  | cons p rest ih =>
    intro g
    simp only [List.foldl_cons]
    exact sameShape_trans (ih (setCell g p.1 p.2 v)) (sameShape_setCell g p.1 p.2 v)

/-- getCell-level corollary of rawGet_foldl_set, for in-bounds reads. -/
theorem getCell_foldl_set (v : Int) (hv : v ≠ HIDDEN)
    (pts : List (Int × Int)) (g : GridMat)
    (hpts : ∀ p ∈ pts, SafeP p ∧ getCell g p.1 p.2 ≠ HIDDEN)
    (q : Int × Int) (hq : SafeP q) :
    getCell (pts.foldl (fun h r => setCell h r.1 r.2 v) g) q.1 q.2
      = if q ∈ pts then v else getCell g q.1 q.2 := by
  rw [getCell_eq_rawGet, rawGet_foldl_set v hv pts g hpts]
  by_cases hmem : q ∈ pts
  · rw [if_pos ⟨q, hmem, rfl, rfl⟩, if_pos hmem]
  · have hno : ¬ ∃ p ∈ pts, idx p.2 = idx q.2 ∧ idx p.1 = idx q.1 := by
      rintro ⟨p, hp, hpi⟩
      refine hmem ?_
      rw [safe_eq_of_idx_eq hq (hpts p hp).1 hpi.2.symm hpi.1.symm]
      exact hp
    rw [if_neg hno, if_neg hmem, getCell_eq_rawGet]

/-! ### Lemmas: the playable region and the neighbor table -/

theorem allowed_safe {p : Int × Int} (h : p ∈ allowedPairs) : SafeP p := by
  have hall : ∀ q ∈ allowedPairs, SafeP q := by decide
  exact hall p h

theorem valid_of_mem_allowed {p : Int × Int} (h : p ∈ allowedPairs) :
    is_point_valid initGrid p.1 p.2 = true := by
  have hall : ∀ q ∈ allowedPairs, is_point_valid initGrid q.1 q.2 = true := by decide
  exact hall p h

theorem safeP_of_safe {x y : Int} (h : is_point_safe x y = true) : SafeP (x, y) := by
  simp only [is_point_safe, Bool.and_eq_true, decide_eq_true_eq] at h
  exact ⟨h.1.1.1, h.1.1.2, h.1.2, h.2⟩

theorem safe_of_valid {g : GridMat} {x y : Int} (h : is_point_valid g x y = true) :
    SafeP (x, y) := by
  simp only [is_point_valid, Bool.and_eq_true] at h
  exact safeP_of_safe h.1

theorem mem_allowed_of_valid {p : Int × Int} (hs : SafeP p)
    (hv : is_point_valid initGrid p.1 p.2 = true) : p ∈ allowedPairs := by
  have h121 := (safeP_iff_mem121 p).mp hs
  have hall : ∀ q ∈ allPairs121, is_point_valid initGrid q.1 q.2 = true → q ∈ allowedPairs := by
    decide
  exact hall p h121 hv

theorem mem_neighborsOf_elim {x y : Int} {q : Int × Int} (h : q ∈ neighborsOf x y) :
    (∃ m ∈ movementList, q = (x + m.1, y + m.2)) ∧
      is_point_valid initGrid q.1 q.2 = true := by
  simp only [neighborsOf, List.mem_filter, List.mem_map] at h
  obtain ⟨⟨m, hm, rfl⟩, hv⟩ := h
  exact ⟨⟨m, hm, rfl⟩, hv⟩

theorem neighborsOf_mem_allowed {x y : Int} {q : Int × Int} (h : q ∈ neighborsOf x y) :
    q ∈ allowedPairs := by
  obtain ⟨_, hv⟩ := mem_neighborsOf_elim h
  exact mem_allowed_of_valid (by have := safe_of_valid hv; exact this) hv

theorem mem_neighborsOf_intro {x y : Int} {q : Int × Int}
    (hm : ∃ m ∈ movementList, q = (x + m.1, y + m.2))
    (hv : is_point_valid initGrid q.1 q.2 = true) : q ∈ neighborsOf x y := by
  simp only [neighborsOf, List.mem_filter, List.mem_map]
  obtain ⟨m, hmm, rfl⟩ := hm
  exact ⟨⟨m, hmm, rfl⟩, hv⟩

/-- The movement table is closed under negation, so the neighbor relation
is symmetric between playable cells. -/
theorem mem_neighborsOf_symm {p q : Int × Int} (hp : p ∈ allowedPairs)
    (h : q ∈ neighborsOf p.1 p.2) : p ∈ neighborsOf q.1 q.2 := by
  obtain ⟨⟨m, hm, hq⟩, _⟩ := mem_neighborsOf_elim h
  have hneg : ∀ m ∈ movementList, ((-m.1, -m.2) : Int × Int) ∈ movementList := by decide
  refine mem_neighborsOf_intro ⟨(-m.1, -m.2), hneg m hm, ?_⟩ (valid_of_mem_allowed hp)
  have h1 : q.1 = p.1 + m.1 := by rw [hq]
  have h2 : q.2 = p.2 + m.2 := by rw [hq]
  have : p.1 = q.1 + -m.1 := by omega
  have : p.2 = q.2 + -m.2 := by omega
  exact Prod.ext (by omega) (by omega)

/-! ### Lemmas: reachability -/

theorem reach_free {g : GridMat} {c b : Int × Int} (h : Reach g c b)
    (hc : getCell g c.1 c.2 = FREE) : getCell g b.1 b.2 = FREE := by
  induction h with
  | refl => exact hc
  | tail _ hstep ih => exact hstep.2

theorem reach_allowed {g : GridMat} {c b : Int × Int} (hc : c ∈ allowedPairs)
    (h : Reach g c b) : b ∈ allowedPairs := by
  induction h with
  | refl => exact hc
  | tail _ hstep ih => exact neighborsOf_mem_allowed hstep.1

theorem reach_symm {g : GridMat} {c b : Int × Int} (hc : getCell g c.1 c.2 = FREE)
    (hca : c ∈ allowedPairs) (h : Reach g c b) : Reach g b c := by
  induction h with
  | refl => exact Relation.ReflTransGen.refl
  | tail hr hstep ih =>
    refine Relation.ReflTransGen.head ⟨?_, reach_free hr hc⟩ ih
    exact mem_neighborsOf_symm (reach_allowed hca hr) hstep.1

theorem component_eq_of_reach {g : GridMat} {c b : Int × Int}
    (hc : getCell g c.1 c.2 = FREE) (hca : c ∈ allowedPairs) (hb : Reach g c b) :
    component g b = component g c := by
  ext p
  constructor
  · intro hp
    exact Relation.ReflTransGen.trans hb hp
  · intro hp
    exact Relation.ReflTransGen.trans (reach_symm hc hca hb) hp

/-! ### The flood fill computes connected components -/

/-- The scratch grid g agrees with g₀ except that exactly the cells of V
are marked VISITED. -/
def PW (g₀ : GridMat) (V : List (Int × Int)) (g : GridMat) : Prop :=
  sameShape g g₀ ∧
  (∀ q ∈ V, getCell g q.1 q.2 = VISITED) ∧
  (∀ q : Int × Int, SafeP q → q ∉ V → getCell g q.1 q.2 = getCell g₀ q.1 q.2)

theorem PW_nil (g : GridMat) : PW g [] g :=
  ⟨sameShape_refl g, by simp, fun _ _ _ => rfl⟩

theorem PW_mark {g₀ g' : GridMat} {V : List (Int × Int)} {q : Int × Int}
    (hpw : PW g₀ V g') (hq : SafeP q) (hqf : getCell g₀ q.1 q.2 = FREE)
    (hqn : q ∉ V) (hVs : ∀ v ∈ V, SafeP v) :
    PW g₀ (q :: V) (setCell g' q.1 q.2 VISITED) := by
  obtain ⟨hsh, hmk, hun⟩ := hpw
  have hg'q : getCell g' q.1 q.2 = FREE := (hun q hq hqn).trans hqf
  refine ⟨sameShape_trans (sameShape_setCell g' q.1 q.2 VISITED) hsh, ?_, ?_⟩
  · intro r hr
    rcases List.mem_cons.mp hr with rfl | hrV
    · rw [getCell_setCell_self VISITED (by rw [hg'q]; decide)]
    · have hrq : r ≠ q := fun he => hqn (he ▸ hrV)
      rw [getCell_setCell_ne VISITED (hVs r hrV) hq hrq]
      exact hmk r hrV
  · intro r hrs hrn
    have hrq : r ≠ q := fun he => hrn (he ▸ List.mem_cons_self q V)
    rw [getCell_setCell_ne VISITED hrs hq hrq]
    exact hun r hrs (fun hrV => hrn (List.mem_cons_of_mem _ hrV))

/-- Invariant-based correctness of the while loop: starting from an
exploration V with pending stack, the loop terminates having visited
exactly the cells reachable from c, returning their number. -/
theorem dfsVisit_loop (g : GridMat) (c : Int × Int)
    (hca : c ∈ allowedPairs) (hcf : getCell g c.1 c.2 = FREE) :
    ∀ n g' (stack V : List (Int × Int)),
      dfsMeasure g' stack < n →
      V.Nodup →
      c ∈ V →
      (∀ v ∈ V, v ∈ allowedPairs ∧ getCell g v.1 v.2 = FREE ∧ Reach g c v) →
      PW g V g' →
      (∀ q ∈ stack, q ∈ allowedPairs ∧ ∃ v ∈ V, q ∈ neighborsOf v.1 v.2) →
      (∀ v ∈ V, ∀ b ∈ neighborsOf v.1 v.2, getCell g b.1 b.2 = FREE →
        b ∈ V ∨ b ∈ stack) →
      ∃ W gf, dfsVisit g' stack V.length = (gf, W.length) ∧
        W.Nodup ∧ c ∈ W ∧
        (∀ p ∈ W, p ∈ allowedPairs ∧ getCell g p.1 p.2 = FREE ∧ Reach g c p) ∧
        (∀ p, Reach g c p → p ∈ W) ∧
        PW g W gf := by
  intro n
  induction n using Nat.strong_induction_on with
  | _ n ih =>
    intro g' stack V hm hnd hcV hV hpw hstk hcl
    cases stack with
    | nil =>
      refine ⟨V, g', dfsVisit_nil g' V.length, hnd, hcV, hV, ?_, hpw⟩
      intro p hp
      induction hp with
      | refl => exact hcV
      | tail hr hstep ihr =>
        rcases hcl _ ihr _ hstep.1 hstep.2 with hb | hb
        · exact hb
        · exact absurd hb (List.not_mem_nil _)
    | cons q rest =>
      obtain ⟨x, y⟩ := q
      have hqstk := hstk (x, y) (List.mem_cons_self _ _)
      have hqsafe : SafeP (x, y) := allowed_safe hqstk.1
      by_cases hf : getCell g' x y = FREE
      · -- a new free cell: mark it and push its neighbors
        have hqnV : (x, y) ∉ V := by
          intro hmem
          have := (hpw.2.1) (x, y) hmem
          rw [this] at hf
          exact absurd hf (by decide)
        have hqfree : getCell g (x, y).1 (x, y).2 = FREE := by
          have := hpw.2.2 (x, y) hqsafe hqnV
          rw [← this]
          exact hf
        obtain ⟨v, hvV, hvnb⟩ := hqstk.2
        have hreach : Reach g c (x, y) :=
          Relation.ReflTransGen.tail (hV v hvV).2.2 ⟨hvnb, hqfree⟩
        have hVs : ∀ v ∈ V, SafeP v := fun v hv => allowed_safe (hV v hv).1
        have hpw' : PW g ((x, y) :: V) (setCell g' x y VISITED) :=
          PW_mark hpw hqsafe hqfree hqnV hVs
        have hmeas : dfsMeasure (setCell g' x y VISITED)
            ((neighborsOf x y).reverse ++ rest) < dfsMeasure g' ((x, y) :: rest) := by
          have hd := freeCountAll_set_visited hf
          have hn := length_neighborsOf_le x y
          simp only [dfsMeasure, List.length_append, List.length_reverse, List.length_cons]
          omega
        have hrec := ih (dfsMeasure g' ((x, y) :: rest)) hm
          (setCell g' x y VISITED) ((neighborsOf x y).reverse ++ rest) ((x, y) :: V)
          hmeas
          (List.nodup_cons.mpr ⟨hqnV, hnd⟩)
          (List.mem_cons_of_mem _ hcV)
          (by
            intro v hv
            rcases List.mem_cons.mp hv with rfl | hvm
            · exact ⟨hqstk.1, hqfree, hreach⟩
            · exact hV v hvm)
          hpw'
          (by
            intro r hr
            rcases List.mem_append.mp hr with hrl | hrr
            · have hrnb := List.mem_reverse.mp hrl
              exact ⟨neighborsOf_mem_allowed hrnb,
                (x, y), List.mem_cons_self _ _, hrnb⟩
            · obtain ⟨ha, v, hvV, hvnb⟩ := hstk r (List.mem_cons_of_mem _ hrr)
              exact ⟨ha, v, List.mem_cons_of_mem _ hvV, hvnb⟩)
          (by
            intro v hv b hb hbf
            rcases List.mem_cons.mp hv with rfl | hvm
            · exact Or.inr (List.mem_append.mpr (Or.inl (List.mem_reverse.mpr hb)))
            · rcases hcl v hvm b hb hbf with hbV | hbs
              · exact Or.inl (List.mem_cons_of_mem _ hbV)
              · rcases List.mem_cons.mp hbs with rfl | hbr
                · exact Or.inl (List.mem_cons_self _ _)
                · exact Or.inr (List.mem_append.mpr (Or.inr hbr)))
        obtain ⟨W, gf, heq, hconc⟩ := hrec
        refine ⟨W, gf, ?_, hconc⟩
        rw [dfsVisit_cons_free rest V.length hf]
        simpa using heq
      · -- a non-free cell: just pop it
        have hmeas : dfsMeasure g' rest < dfsMeasure g' ((x, y) :: rest) := by
          simp only [dfsMeasure, List.length_cons]
          omega
        have hcl' : ∀ v ∈ V, ∀ b ∈ neighborsOf v.1 v.2, getCell g b.1 b.2 = FREE →
            b ∈ V ∨ b ∈ rest := by
          intro v hv b hb hbf
          rcases hcl v hv b hb hbf with hbV | hbs
          · exact Or.inl hbV
          · rcases List.mem_cons.mp hbs with rfl | hbr
            · left
              by_contra hbn
              have hun := hpw.2.2 (x, y) hqsafe hbn
              rw [hun] at hf
              exact hf hbf
            · exact Or.inr hbr
        have hrec := ih (dfsMeasure g' ((x, y) :: rest)) hm g' rest V hmeas hnd hcV hV hpw
          (fun r hr => hstk r (List.mem_cons_of_mem _ hr)) hcl'
        obtain ⟨W, gf, heq, hconc⟩ := hrec
        refine ⟨W, gf, ?_, hconc⟩
        rw [dfsVisit_cons_stuck rest V.length hf]
        exact heq

/-- The depth-first search started by the outer loop of is_impossible at a
free cell c visits exactly the connected component of c and returns its
size. -/
theorem dfsVisit_spec {g : GridMat} {c : Int × Int}
    (hca : c ∈ allowedPairs) (hcf : getCell g c.1 c.2 = FREE) :
    ∃ W gf,
      dfsVisit (setCell g c.1 c.2 VISITED) (neighborsOf c.1 c.2).reverse 1 = (gf, W.length) ∧
      W.Nodup ∧ c ∈ W ∧
      (∀ p ∈ W, p ∈ allowedPairs ∧ getCell g p.1 p.2 = FREE ∧ Reach g c p) ∧
      (∀ p, Reach g c p → p ∈ W) ∧
      PW g W gf := by
  have hsafe : SafeP c := allowed_safe hca
  have h := dfsVisit_loop g c hca hcf
    (dfsMeasure (setCell g c.1 c.2 VISITED) (neighborsOf c.1 c.2).reverse + 1)
    (setCell g c.1 c.2 VISITED) (neighborsOf c.1 c.2).reverse [c]
    (Nat.lt_succ_self _)
    (List.nodup_cons.mpr ⟨List.not_mem_nil c, List.nodup_nil⟩)
    (List.mem_cons_self c [])
    (by
      intro v hv
      rcases List.mem_cons.mp hv with rfl | hvm
      · exact ⟨hca, hcf, Relation.ReflTransGen.refl⟩
      · exact absurd hvm (List.not_mem_nil v))
    (by
      have := PW_mark (PW_nil g) hsafe hcf (List.not_mem_nil c) (by simp)
      simpa using this)
    (by
      intro r hr
      have hrnb := List.mem_reverse.mp hr
      exact ⟨neighborsOf_mem_allowed hrnb, c, List.mem_cons_self c [], hrnb⟩)
    (by
      intro v hv b hb hbf
      rcases List.mem_cons.mp hv with rfl | hvm
      · exact Or.inr (List.mem_reverse.mpr hb)
      · exact absurd hvm (List.not_mem_nil v))
  simpa using h

/-! ### From one component to the whole outer loop -/

/-- Reachability on the scratch grid (with a closed union of already
explored components marked) coincides with reachability on the original
grid, for starts outside the explored region. -/
theorem reach_transfer {g g' : GridMat} {U : List (Int × Int)}
    (hU : ∀ u ∈ U, u ∈ allowedPairs ∧ getCell g u.1 u.2 = FREE)
    (hcl : ∀ u ∈ U, ∀ b ∈ neighborsOf u.1 u.2, getCell g b.1 b.2 = FREE → b ∈ U)
    (hpw : PW g U g')
    {c : Int × Int} (hcU : c ∉ U) (hca : c ∈ allowedPairs)
    (hcf : getCell g c.1 c.2 = FREE) :
    ∀ b, Reach g' c b ↔ Reach g c b := by
  intro b
  constructor
  · intro h
    induction h with
    | refl => exact Relation.ReflTransGen.refl
    | @tail a q hr hstep ihr =>
      refine Relation.ReflTransGen.tail ihr ⟨hstep.1, ?_⟩
      have hballowed := neighborsOf_mem_allowed hstep.1
      have hbsafe := allowed_safe hballowed
      by_cases hbU : q ∈ U
      · exact absurd ((hpw.2.1 q hbU).symm.trans hstep.2) (by decide)
      · exact ((hpw.2.2 q hbsafe hbU).symm).trans hstep.2
  · intro h
    suffices hs : Reach g' c b ∧ b ∉ U from hs.1
    induction h with
    | refl => exact ⟨Relation.ReflTransGen.refl, hcU⟩
    | @tail a q hr hstep ihr =>
      have hballowed := neighborsOf_mem_allowed hstep.1
      have hbsafe := allowed_safe hballowed
      have haallowed : a ∈ allowedPairs := reach_allowed hca hr
      have hbU : q ∉ U := by
        intro hbU
        exact ihr.2 (hcl q hbU a (mem_neighborsOf_symm haallowed hstep.1)
          (reach_free hr hcf))
      refine ⟨Relation.ReflTransGen.tail ihr.1 ⟨hstep.1, ?_⟩, hbU⟩
      exact (hpw.2.2 q hbsafe hbU).trans hstep.2

/-- A nodup list characterized as the members of l satisfying P counts P
in l. -/
theorem countP_eq_length_of_iff {α : Type} [DecidableEq α] {l u : List α} {P : α → Bool}
    (hl : l.Nodup) (hu : u.Nodup) (hiff : ∀ a, a ∈ u ↔ (a ∈ l ∧ P a = true)) :
    l.countP P = u.length := by
  rw [List.countP_eq_length_filter]
  have hfn : (l.filter P).Nodup := List.Nodup.filter P hl
  have hset : u.toFinset = (l.filter P).toFinset := by
    apply Finset.ext
    intro a
    rw [List.mem_toFinset, List.mem_toFinset, List.mem_filter, hiff]
  have := congrArg Finset.card hset
  rw [List.toFinset_card_of_nodup hu, List.toFinset_card_of_nodup hfn] at this
  exact this.symm

theorem allPairs121_nodup : allPairs121.Nodup := by decide

theorem mem121_of_allowed {p : Int × Int} (h : p ∈ allowedPairs) : p ∈ allPairs121 :=
  (safeP_iff_mem121 p).mp (allowed_safe h)

/-- Joint characterization of the outer loop of is_impossible, relative to
an already explored closed union U of components of size ≡ 0 (mod 5):
the loop returns true iff some cell of the remaining iteration range lies
in a component of bad size; and if it returns false while U and the range
cover all free cells, the total number of free cells is ≡ 0 (mod 5). -/
theorem isImpossibleAux_spec (g : GridMat) :
    ∀ (pairs : List (Int × Int)) (g' : GridMat) (U : List (Int × Int)),
      (∀ p ∈ pairs, p ∈ allowedPairs) →
      U.Nodup →
      (∀ u ∈ U, u ∈ allowedPairs ∧ getCell g u.1 u.2 = FREE ∧
        (component g u).ncard % 5 = 0) →
      (∀ u ∈ U, ∀ b ∈ neighborsOf u.1 u.2, getCell g b.1 b.2 = FREE → b ∈ U) →
      PW g U g' →
      U.length % 5 = 0 →
      ((isImpossibleAux pairs g' = true ↔
        ∃ c ∈ pairs, getCell g c.1 c.2 = FREE ∧ (component g c).ncard % 5 ≠ 0) ∧
       (isImpossibleAux pairs g' = false →
        (∀ p : Int × Int, SafeP p → getCell g p.1 p.2 = FREE → p ∈ U ∨ p ∈ pairs) →
        countFree g % 5 = 0)) := by
  intro pairs
  induction pairs with
  | nil =>
    intro g' U hpa hnd hU hcl hpw hU5
    refine ⟨by simp [isImpossibleAux], ?_⟩
    intro _ hcov
    have hcnt : countFree g = U.length := by
      apply countP_eq_length_of_iff allPairs121_nodup hnd
      intro p
      constructor
      · intro hp
        obtain ⟨hpal, hpf, _⟩ := hU p hp
        exact ⟨mem121_of_allowed hpal, by simpa using hpf⟩
      · rintro ⟨hp121, hpf⟩
        rcases hcov p ((safeP_iff_mem121 p).mpr hp121) (by simpa using hpf) with h | h
        · exact h
        · exact absurd h (List.not_mem_nil p)
    rw [hcnt]
    exact hU5
  | cons hd rest ih =>
    intro g' U hpa hnd hU hcl hpw hU5
    obtain ⟨x, y⟩ := hd
    have hxyal : (x, y) ∈ allowedPairs := hpa (x, y) (List.mem_cons_self _ _)
    have hxysafe : SafeP (x, y) := allowed_safe hxyal
    have hUn : ∀ u ∈ U, u ∈ allowedPairs ∧ getCell g u.1 u.2 = FREE :=
      fun u hu => ⟨(hU u hu).1, (hU u hu).2.1⟩
    by_cases hf : getCell g' x y = FREE
    · -- unexplored free cell: run the flood fill
      have hxyU : (x, y) ∉ U := by
        intro hmem
        have := hpw.2.1 (x, y) hmem
        rw [this] at hf
        exact absurd hf (by decide)
      have hxyfree : getCell g x y = FREE := by
        have := hpw.2.2 (x, y) hxysafe hxyU
        rw [← this]
        exact hf
      obtain ⟨W, gf, heq, hWnd, hcW, hWprops, hWcompl, hWpw⟩ :=
        dfsVisit_spec (g := g') (c := (x, y)) hxyal hf
      have htr := reach_transfer hUn hcl hpw hxyU hxyal hxyfree
      -- W members relative to the original grid
      have hWfree : ∀ p ∈ W, p ∉ U ∧ getCell g p.1 p.2 = FREE := by
        intro p hp
        obtain ⟨hpal, hpf, _⟩ := hWprops p hp
        have hpsafe := allowed_safe hpal
        have hpnU : p ∉ U := by
          intro hpU
          have := hpw.2.1 p hpU
          rw [this] at hpf
          exact absurd hpf (by decide)
        exact ⟨hpnU, (hpw.2.2 p hpsafe hpnU).symm.trans hpf⟩
      have hWg : ∀ p ∈ W, p ∈ allowedPairs ∧ getCell g p.1 p.2 = FREE ∧
          Reach g (x, y) p := by
        intro p hp
        obtain ⟨hpal, hpf, hpr⟩ := hWprops p hp
        exact ⟨hpal, (hWfree p hp).2, (htr p).mp hpr⟩
      have hWiff : ∀ p, p ∈ W ↔ Reach g (x, y) p := by
        intro p
        constructor
        · intro hp
          exact (hWg p hp).2.2
        · intro hp
          exact hWcompl p ((htr p).mpr hp)
      have hcomp : component g (x, y) = ↑W.toFinset := by
        apply Set.ext
        intro p
        simp only [component, Set.mem_setOf_eq, Finset.mem_coe, List.mem_toFinset]
        exact (hWiff p).symm
      have hncard : (component g (x, y)).ncard = W.length := by
        rw [hcomp, Set.ncard_coe_Finset, List.toFinset_card_of_nodup hWnd]
      have hunfold : isImpossibleAux ((x, y) :: rest) g'
          = if W.length % 5 ≠ 0 then true else isImpossibleAux rest gf := by
        rw [isImpossibleAux_cons, if_pos hf, heq]
      by_cases h5 : W.length % 5 ≠ 0
      · -- bad component found: the loop answers true and the witness is (x, y)
        rw [hunfold, if_pos h5]
        refine ⟨?_, by intro hcon; cases hcon⟩
        constructor
        · intro _
          exact ⟨(x, y), List.mem_cons_self _ _, hxyfree, by rw [hncard]; exact h5⟩
        · intro _
          rfl
      · -- good component: fold it into U and continue
        push_neg at h5
        rw [hunfold, if_neg (by omega)]
        have hWU_disj : W.Disjoint U := by
          intro a haW haU
          exact (hWfree a haW).1 haU
        have hnd' : (W ++ U).Nodup := List.Nodup.append hWnd hnd hWU_disj
        have hU' : ∀ u ∈ W ++ U, u ∈ allowedPairs ∧ getCell g u.1 u.2 = FREE ∧
            (component g u).ncard % 5 = 0 := by
          intro u hu
          rcases List.mem_append.mp hu with huW | huU
          · obtain ⟨hual, huf, hur⟩ := hWg u huW
            refine ⟨hual, huf, ?_⟩
            rw [component_eq_of_reach (c := (x, y)) (b := u) hxyfree hxyal hur, hncard]
            exact h5
          · exact hU u huU
        have hcl' : ∀ u ∈ W ++ U, ∀ b ∈ neighborsOf u.1 u.2,
            getCell g b.1 b.2 = FREE → b ∈ W ++ U := by
          intro u hu b hb hbf
          rcases List.mem_append.mp hu with huW | huU
          · have hur := (hWg u huW).2.2
            have : Reach g (x, y) b := Relation.ReflTransGen.tail hur ⟨hb, hbf⟩
            exact List.mem_append.mpr (Or.inl ((hWiff b).mpr this))
          · exact List.mem_append.mpr (Or.inr (hcl u huU b hb hbf))
        have hpw' : PW g (W ++ U) gf := by
          refine ⟨sameShape_trans hWpw.1 hpw.1, ?_, ?_⟩
          · intro q hq
            rcases List.mem_append.mp hq with hqW | hqU
            · exact hWpw.2.1 q hqW
            · have hqsafe := allowed_safe (hU q hqU).1
              have hqnW : q ∉ W := fun hqW => hWU_disj hqW hqU
              rw [hWpw.2.2 q hqsafe hqnW]
              exact hpw.2.1 q hqU
          · intro q hqs hqn
            have hqnW : q ∉ W := fun h => hqn (List.mem_append.mpr (Or.inl h))
            have hqnU : q ∉ U := fun h => hqn (List.mem_append.mpr (Or.inr h))
            rw [hWpw.2.2 q hqs hqnW]
            exact hpw.2.2 q hqs hqnU
        have hU5' : (W ++ U).length % 5 = 0 := by
          rw [List.length_append]
          omega
        have hrest := ih gf (W ++ U) (fun p hp => hpa p (List.mem_cons_of_mem _ hp))
          hnd' hU' hcl' hpw' hU5'
        constructor
        · rw [hrest.1]
          constructor
          · rintro ⟨c, hc, hcf, hcb⟩
            exact ⟨c, List.mem_cons_of_mem _ hc, hcf, hcb⟩
          · rintro ⟨c, hc, hcf, hcb⟩
            rcases List.mem_cons.mp hc with rfl | hcr
            · exact absurd (by rw [hncard]; exact h5) hcb
            · exact ⟨c, hcr, hcf, hcb⟩
        · intro hfalse hcov
          apply hrest.2 hfalse
          intro p hps hpf
          rcases hcov p hps hpf with hpU | hpp
          · exact Or.inl (List.mem_append.mpr (Or.inr hpU))
          · rcases List.mem_cons.mp hpp with rfl | hpr
            · exact Or.inl (List.mem_append.mpr (Or.inl hcW))
            · exact Or.inr hpr
    · -- already visited or not free: skip
      have hunfold : isImpossibleAux ((x, y) :: rest) g' = isImpossibleAux rest g' := by
        rw [isImpossibleAux_cons, if_neg hf]
      have hmemU : getCell g x y = FREE → (x, y) ∈ U := by
        intro hxyf
        by_contra hxyU
        have := hpw.2.2 (x, y) hxysafe hxyU
        rw [this] at hf
        exact hf hxyf
      have hrest := ih g' U (fun p hp => hpa p (List.mem_cons_of_mem _ hp))
        hnd hU hcl hpw hU5
      rw [hunfold]
      constructor
      · rw [hrest.1]
        constructor
        · rintro ⟨c, hc, hcf, hcb⟩
          exact ⟨c, List.mem_cons_of_mem _ hc, hcf, hcb⟩
        · rintro ⟨c, hc, hcf, hcb⟩
          rcases List.mem_cons.mp hc with rfl | hcr
          · exact absurd (hU (x, y) (hmemU hcf)).2.2 hcb
          · exact ⟨c, hcr, hcf, hcb⟩
      · intro hfalse hcov
        apply hrest.2 hfalse
        intro p hps hpf
        rcases hcov p hps hpf with hpU | hpp
        · exact Or.inl hpU
        · rcases List.mem_cons.mp hpp with rfl | hpr
          · exact Or.inl (hmemU hpf)
          · exact Or.inr hpr

/-- Characterization of Grid.is_impossible: it answers true exactly when
some playable free cell lies in a connected component whose size is not a
multiple of 5. -/
theorem is_impossible_iff (g : GridMat) :
    is_impossible g = true ↔
      ∃ c ∈ allowedPairs, getCell g c.1 c.2 = FREE ∧
        (component g c).ncard % 5 ≠ 0 :=
  (isImpossibleAux_spec g allowedPairs g [] (fun _ h => h) List.nodup_nil
    (by simp) (by simp) (PW_nil g) (by decide)).1

/-- If is_impossible answers false and every free cell is playable, the
number of free cells is a multiple of 5. -/
theorem is_impossible_false_count {g : GridMat} (hfo : freeOnlyAllowed g)
    (hfalse : is_impossible g = false) : countFree g % 5 = 0 := by
  refine (isImpossibleAux_spec g allowedPairs g [] (fun _ h => h) List.nodup_nil
    (by simp) (by simp) (PW_nil g) (by decide)).2 hfalse ?_
  intro p hps hpf
  exact Or.inr (hfo p ((safeP_iff_mem121 p).mp hps) hpf)

/-! ### Effects of add_piece and remove_piece -/

theorem is_point_free_iff {g : GridMat} {x y : Int} :
    is_point_free g x y = true ↔ SafeP (x, y) ∧ getCell g x y = FREE := by
  simp only [is_point_free, Bool.and_eq_true, decide_eq_true_eq]
  constructor
  · rintro ⟨hs, hf⟩
    exact ⟨safeP_of_safe hs, hf⟩
  · rintro ⟨⟨h1, h2, h3, h4⟩, hf⟩
    refine ⟨?_, hf⟩
    simp only [is_point_safe, Bool.and_eq_true, decide_eq_true_eq]
    exact ⟨⟨⟨h1, h2⟩, h3⟩, h4⟩

theorem Piece.index_nonneg (p : Piece) : 0 ≤ p.index := Int.ofNat_nonneg _

theorem add_piece_succ_iff {g : GridMat} {p : Piece} :
    (add_piece g p).1 = true ↔ ∀ q ∈ p.points, is_point_free g q.1 q.2 = true := by
  by_cases h : p.points.all (fun q => is_point_free g q.1 q.2) = true
  · simp only [add_piece, if_pos h]
    simpa [List.all_eq_true] using h
  · simp only [add_piece, if_neg h]
    simp only [List.all_eq_true] at h
    simpa using h

theorem add_piece_points_free {g : GridMat} {p : Piece}
    (h : (add_piece g p).1 = true) :
    ∀ q ∈ p.points, SafeP q ∧ getCell g q.1 q.2 = FREE := by
  intro q hq
  have := add_piece_succ_iff.mp h q hq
  exact is_point_free_iff.mp this

theorem add_piece_snd_of_true {g : GridMat} {p : Piece}
    (h : (add_piece g p).1 = true) :
    (add_piece g p).2 = p.points.foldl (fun h q => setCell h q.1 q.2 p.index) g := by
  by_cases hc : p.points.all (fun q => is_point_free g q.1 q.2) = true
  · simp only [add_piece, if_pos hc]
  · simp only [add_piece, if_neg hc] at h
    exact absurd h (by simp)

theorem add_piece_snd_of_false {g : GridMat} {p : Piece}
    (h : (add_piece g p).1 = false) :
    (add_piece g p).2 = g := by
  by_cases hc : p.points.all (fun q => is_point_free g q.1 q.2) = true
  · simp only [add_piece, if_pos hc] at h
    exact absurd h (by simp)
  · simp only [add_piece, if_neg hc]

/-- On success, add_piece sets exactly the component cells to the piece
index and leaves every other cell untouched. -/
theorem add_piece_getCell {g : GridMat} {p : Piece}
    (h : (add_piece g p).1 = true) {q : Int × Int} (hq : SafeP q) :
    getCell (add_piece g p).2 q.1 q.2
      = if q ∈ p.points then p.index else getCell g q.1 q.2 := by
  rw [add_piece_snd_of_true h]
  refine getCell_foldl_set p.index (by simp only [Piece.index, HIDDEN]; omega)
    p.points g ?_ q hq
  intro r hr
  obtain ⟨hrs, hrf⟩ := add_piece_points_free h r hr
  exact ⟨hrs, by rw [hrf]; decide⟩

theorem add_piece_sameShape {g : GridMat} {p : Piece} :
    sameShape (add_piece g p).2 g := by
  by_cases h : (add_piece g p).1 = true
  · rw [add_piece_snd_of_true h]
    exact sameShape_foldl_set _ _ _
  · rw [add_piece_snd_of_false (by simpa using h)]
    exact sameShape_refl g

/-- Round trip: removing a piece just successfully added restores the grid
exactly. -/
theorem remove_add_piece {g : GridMat} {p : Piece}
    (h : (add_piece g p).1 = true) :
    remove_piece (add_piece g p).2 p = g := by
  have hidx : p.index ≠ HIDDEN := by
    simp only [Piece.index, HIDDEN]
    omega
  have hpts : ∀ q ∈ p.points, SafeP q ∧ getCell g q.1 q.2 = FREE :=
    add_piece_points_free h
  have hpts' : ∀ q ∈ p.points, SafeP q ∧ getCell (add_piece g p).2 q.1 q.2 ≠ HIDDEN := by
    intro q hq
    refine ⟨(hpts q hq).1, ?_⟩
    rw [add_piece_getCell h (hpts q hq).1, if_pos hq]
    exact hidx
  apply gridExt
  · exact sameShape_trans (sameShape_foldl_set _ _ _) add_piece_sameShape
  · intro i j
    show rawGet (p.points.foldl (fun h q => setCell h q.1 q.2 FREE) (add_piece g p).2) i j
      = rawGet g i j
    rw [rawGet_foldl_set FREE (by decide) p.points (add_piece g p).2 hpts' i j]
    by_cases hmem : ∃ q ∈ p.points, idx q.2 = i ∧ idx q.1 = j
    · rw [if_pos hmem]
      obtain ⟨q, hqm, hqi, hqj⟩ := hmem
      subst hqi
      subst hqj
      exact ((hpts q hqm).2).symm
    · rw [if_neg hmem]
      rw [add_piece_snd_of_true h,
        rawGet_foldl_set p.index hidx p.points g
          (fun r hr => ⟨(hpts r hr).1, by rw [(hpts r hr).2]; decide⟩) i j,
        if_neg hmem]

/-! ### Counting free cells -/

theorem countP_change_at {α : Type} {l : List α} {q : α}
    (hq : q ∈ l) (hnd : l.Nodup) {P₁ P₂ : α → Bool}
    (hsame : ∀ a ∈ l, a ≠ q → P₁ a = P₂ a)
    (h1 : P₁ q = true) (h2 : P₂ q = false) :
    l.countP P₂ + 1 = l.countP P₁ := by
  induction l with
  | nil => exact absurd hq (List.not_mem_nil q)
  | cons a rest ih =>
    by_cases hqa : q = a
    · subst hqa
      have hnd' := List.nodup_cons.mp hnd
      have hrest : rest.countP P₁ = rest.countP P₂ := by
        refine List.countP_congr ?_
        intro b hb
        have hbq : b ≠ q := fun he => hnd'.1 (he ▸ hb)
        rw [hsame b (List.mem_cons_of_mem _ hb) hbq]
      rw [List.countP_cons, List.countP_cons, h1, h2, hrest]
      simp
    · have hqr : q ∈ rest := (List.mem_cons.mp hq).resolve_left hqa
      have hstep := ih hqr (List.nodup_cons.mp hnd).2
        (fun b hb hbq => hsame b (List.mem_cons_of_mem _ hb) hbq)
      have ha : P₁ a = P₂ a :=
        hsame a (List.mem_cons_self _ _) (fun he => hqa he.symm)
      rw [List.countP_cons, List.countP_cons, ha]
      omega

/-- Overwriting one free cell with a non-free value decrements the free
count by one. -/
theorem countFree_set {g : GridMat} {q : Int × Int} {v : Int}
    (hqs : SafeP q) (hqf : getCell g q.1 q.2 = FREE) (hv : v ≠ FREE) :
    countFree (setCell g q.1 q.2 v) + 1 = countFree g := by
  unfold countFree
  refine countP_change_at ((safeP_iff_mem121 q).mp hqs) allPairs121_nodup ?_ ?_ ?_
  · intro a ha hne
    have has : SafeP a := (safeP_iff_mem121 a).mpr ha
    rw [getCell_setCell_ne v has hqs hne]
  · simpa using hqf
  · have : getCell (setCell g q.1 q.2 v) q.1 q.2 = v :=
      getCell_setCell_self v (by rw [hqf]; decide)
    simpa [this] using hv

/-- Writing a non-free value at a nodup list of free cells decrements the
free count by the number of cells. -/
theorem countFree_foldl_set {v : Int} (hv : v ≠ FREE) :
    ∀ (pts : List (Int × Int)) (g : GridMat), pts.Nodup →
      (∀ q ∈ pts, SafeP q ∧ getCell g q.1 q.2 = FREE) →
      countFree (pts.foldl (fun h q => setCell h q.1 q.2 v) g) + pts.length
        = countFree g := by
  intro pts
  induction pts with
  | nil => intro g _ _; simp
  | cons q rest ih =>
    intro g hnd hpts
    obtain ⟨hqs, hqf⟩ := hpts q (List.mem_cons_self _ _)
    have hone := countFree_set hqs hqf hv
    have hrest : ∀ r ∈ rest, SafeP r ∧ getCell (setCell g q.1 q.2 v) r.1 r.2 = FREE := by
      intro r hr
      obtain ⟨hrs, hrf⟩ := hpts r (List.mem_cons_of_mem _ hr)
      have hrq : r ≠ q := fun he => (List.nodup_cons.mp hnd).1 (he ▸ hr)
      exact ⟨hrs, (getCell_setCell_ne v hrs hqs hrq).trans hrf⟩
    have := ih (setCell g q.1 q.2 v) (List.nodup_cons.mp hnd).2 hrest
    simp only [List.foldl_cons, List.length_cons]
    omega

theorem countFree_add_piece {g : GridMat} {p : Piece}
    (h : (add_piece g p).1 = true) (hnd : p.points.Nodup) (hty : 1 ≤ p.pieceType) :
    countFree (add_piece g p).2 + p.points.length = countFree g := by
  rw [add_piece_snd_of_true h]
  refine countFree_foldl_set ?_ p.points g hnd (add_piece_points_free h)
  show (p.pieceType : Int) ≠ FREE
  simp only [FREE]
  omega

theorem freeOnlyAllowed_add_piece {g : GridMat} {p : Piece}
    (hfo : freeOnlyAllowed g) (h : (add_piece g p).1 = true) :
    freeOnlyAllowed (add_piece g p).2 := by
  intro q hq121 hqf
  have hqs : SafeP q := (safeP_iff_mem121 q).mpr hq121
  rw [add_piece_getCell h hqs] at hqf
  by_cases hmem : q ∈ p.points
  · obtain ⟨hqs', hqfree⟩ := add_piece_points_free h q hmem
    exact hfo q hq121 hqfree
  · rw [if_neg hmem] at hqf
    exact hfo q hq121 hqf

/-! ### Solver lemmas -/

/-- Sanity conditions satisfied by the twelve catalog piece types: positive
index, and each rotation has five pairwise distinct offsets. -/
def PieceTypeOK (t : Nat) : Prop :=
  1 ≤ t ∧ ∀ r < 3, ((pieceMovements t).getD r []).Nodup ∧
    ((pieceMovements t).getD r []).length = 5

instance (t : Nat) : Decidable (PieceTypeOK t) := by
  unfold PieceTypeOK; infer_instance

theorem make_new_points_len_nodup {tmpl : Piece} (h : PieceTypeOK tmpl.pieceType)
    (x y : Int) (rot : Nat) :
    (tmpl.make_new x y rot).points.Nodup ∧ (tmpl.make_new x y rot).points.length = 5 := by
  have hrot : rot % 3 < 3 := Nat.mod_lt _ (by omega)
  obtain ⟨hnd, hlen⟩ := h.2 (rot % 3) hrot
  constructor
  · refine List.Nodup.map ?_ hnd
    intro a b hab
    have h1 : tmpl.base_x + a.1 = tmpl.base_x + b.1 := by
      have := congrArg Prod.fst hab
      simpa using this
    have h2 : tmpl.base_y + a.2 = tmpl.base_y + b.2 := by
      have := congrArg Prod.snd hab
      simpa using this
    exact Prod.ext (by omega) (by omega)
  · simpa [Piece.points, Piece.make_new, mkPiece] using hlen

theorem make_new_pieceType (tmpl : Piece) (x y : Int) (rot : Nat) :
    (tmpl.make_new x y rot).pieceType = tmpl.pieceType := rfl

/-- Length of the pieces list is preserved by the inner loop, given the
recursive call preserves it. -/
theorem tryYs_length {k : GridMat → List Piece → Bool × GridMat × List Piece}
    (hk : ∀ g2 ps2, (k g2 ps2).2.2.length = ps2.length)
    (tmpl : Piece) (i : Nat) (rot : Nat) (x : Int) :
    ∀ (ys : List Int) (g : GridMat) (ps : List Piece),
      (tryYs k tmpl i rot x ys g ps).2.2.length = ps.length := by
  intro ys
  induction ys with
  | nil => intro g ps; rfl
  | cons y ys ih =>
    intro g ps
    simp only [tryYs]
    by_cases hr : (add_piece g (tmpl.make_new x y rot)).1 = true
    · simp only [hr, eq_self_iff_true, if_true]
      by_cases hs : (k (add_piece g (tmpl.make_new x y rot)).2 ps).1 = true
      · simp only [hs, eq_self_iff_true, if_true, List.length_set]
        exact hk _ _
      · rw [Bool.not_eq_true] at hs
        simp only [hs, Bool.false_eq_true, if_false]
        rw [ih]
        exact hk _ _
    · rw [Bool.not_eq_true] at hr
      simp only [hr, Bool.false_eq_true, if_false]
      exact ih g ps

theorem tryXs_length {k : GridMat → List Piece → Bool × GridMat × List Piece}
    (hk : ∀ g2 ps2, (k g2 ps2).2.2.length = ps2.length)
    (tmpl : Piece) (i : Nat) (rot : Nat) :
    ∀ (xs : List Int) (g : GridMat) (ps : List Piece),
      (tryXs k tmpl i rot xs g ps).2.2.length = ps.length := by
  intro xs
  induction xs with
  | nil => intro g ps; rfl
  | cons x xs ih =>
    intro g ps
    simp only [tryXs]
    by_cases hr : (tryYs k tmpl i rot x (ysFor x) g ps).1 = true
    · simp only [hr, eq_self_iff_true, if_true]
      exact tryYs_length hk tmpl i rot x _ g ps
    · rw [Bool.not_eq_true] at hr
      simp only [hr, Bool.false_eq_true, if_false]
      rw [ih]
      exact tryYs_length hk tmpl i rot x _ g ps

theorem tryRots_length {k : GridMat → List Piece → Bool × GridMat × List Piece}
    (hk : ∀ g2 ps2, (k g2 ps2).2.2.length = ps2.length)
    (tmpl : Piece) (i : Nat) :
    ∀ (rots : List Nat) (g : GridMat) (ps : List Piece),
      (tryRots k tmpl i rots g ps).2.2.length = ps.length := by
  intro rots
  induction rots with
  | nil => intro g ps; rfl
  | cons rot rots ih =>
    intro g ps
    simp only [tryRots]
    by_cases hr : (tryXs k tmpl i rot allowed_xs_list g ps).1 = true
    · simp only [hr, eq_self_iff_true, if_true]
      exact tryXs_length hk tmpl i rot _ g ps
    · rw [Bool.not_eq_true] at hr
      simp only [hr, Bool.false_eq_true, if_false]
      rw [ih]
      exact tryXs_length hk tmpl i rot _ g ps

theorem solveAux_length :
    ∀ (n : Nat) (g : GridMat) (ps : List Piece) (i ca : Nat),
      (solveAux n g ps i ca).2.2.length = ps.length := by
  intro n
  induction n with
  | zero => intro g ps i ca; rfl
  | succ m ih =>
    intro g ps i ca
    simp only [solveAux]
    by_cases hc : ca ≤ i ∧ is_impossible g = true
    · rw [if_pos hc]
    · rw [if_neg hc]
      exact tryRots_length (fun g2 ps2 => ih g2 ps2 (i + 1) ca) _ i rot_list g ps

/-! ### The nested loops enumerate the flat candidate list -/

theorem specSearch_append (k : GridMat → List Piece → Bool × GridMat × List Piece)
    (tmpl : Piece) (i : Nat) :
    ∀ (l₁ l₂ : List (Nat × Int × Int)) (g : GridMat) (ps : List Piece),
      specSearch k tmpl i (l₁ ++ l₂) g ps =
        (if (specSearch k tmpl i l₁ g ps).1 then specSearch k tmpl i l₁ g ps
         else specSearch k tmpl i l₂ (specSearch k tmpl i l₁ g ps).2.1
           (specSearch k tmpl i l₁ g ps).2.2) := by
  intro l₁
  induction l₁ with
  | nil =>
    intro l₂ g ps
    simp only [List.nil_append, specSearch, Bool.false_eq_true, if_false]
  | cons c cs ih =>
    intro l₂ g ps
    obtain ⟨rot, x, y⟩ := c
    simp only [List.cons_append, specSearch]
    by_cases hr : (add_piece g (tmpl.make_new x y rot)).1 = true
    · simp only [hr, eq_self_iff_true, if_true]
      by_cases hs : (k (add_piece g (tmpl.make_new x y rot)).2 ps).1 = true
      · simp only [hs, eq_self_iff_true, if_true]
      · rw [Bool.not_eq_true] at hs
        simp only [hs, Bool.false_eq_true, if_false]
        exact ih l₂ _ _
    · rw [Bool.not_eq_true] at hr
      simp only [hr, Bool.false_eq_true, if_false]
      exact ih l₂ g ps

theorem tryYs_eq_spec (k : GridMat → List Piece → Bool × GridMat × List Piece)
    (tmpl : Piece) (i : Nat) (rot : Nat) (x : Int) :
    ∀ (ys : List Int) (g : GridMat) (ps : List Piece),
      tryYs k tmpl i rot x ys g ps
        = specSearch k tmpl i (ys.map (fun y => (rot, x, y))) g ps := by
  intro ys
  induction ys with
  | nil => intro g ps; rfl
  | cons y ys ih =>
    intro g ps
    simp only [List.map_cons, tryYs, specSearch]
    by_cases hr : (add_piece g (tmpl.make_new x y rot)).1 = true
    · simp only [hr, eq_self_iff_true, if_true]
      by_cases hs : (k (add_piece g (tmpl.make_new x y rot)).2 ps).1 = true
      · simp only [hs, eq_self_iff_true, if_true]
      · rw [Bool.not_eq_true] at hs
        simp only [hs, Bool.false_eq_true, if_false]
        exact ih _ _
    · rw [Bool.not_eq_true] at hr
      simp only [hr, Bool.false_eq_true, if_false]
      exact ih g ps

theorem tryXs_eq_spec (k : GridMat → List Piece → Bool × GridMat × List Piece)
    (tmpl : Piece) (i : Nat) (rot : Nat) :
    ∀ (xs : List Int) (g : GridMat) (ps : List Piece),
      tryXs k tmpl i rot xs g ps
        = specSearch k tmpl i
            (xs.flatMap (fun x => (ysFor x).map (fun y => (rot, x, y)))) g ps := by
  intro xs
  induction xs with
  | nil => intro g ps; rfl
  | cons x xs ih =>
    intro g ps
    simp only [List.flatMap_cons, tryXs]
    rw [specSearch_append, ← tryYs_eq_spec]
    by_cases hr : (tryYs k tmpl i rot x (ysFor x) g ps).1 = true
    · simp only [hr, eq_self_iff_true, if_true]
    · rw [Bool.not_eq_true] at hr
      simp only [hr, Bool.false_eq_true, if_false]
      exact ih _ _

theorem tryRots_eq_spec (k : GridMat → List Piece → Bool × GridMat × List Piece)
    (tmpl : Piece) (i : Nat) :
    ∀ (rots : List Nat) (g : GridMat) (ps : List Piece),
      tryRots k tmpl i rots g ps
        = specSearch k tmpl i
            (rots.flatMap (fun rot =>
              allowed_xs_list.flatMap (fun x => (ysFor x).map (fun y => (rot, x, y)))))
            g ps := by
  intro rots
  induction rots with
  | nil => intro g ps; rfl
  | cons rot rots ih =>
    intro g ps
    simp only [List.flatMap_cons, tryRots]
    rw [specSearch_append, ← tryXs_eq_spec]
    by_cases hr : (tryXs k tmpl i rot allowed_xs_list g ps).1 = true
    · simp only [hr, eq_self_iff_true, if_true]
    · rw [Bool.not_eq_true] at hr
      simp only [hr, Bool.false_eq_true, if_false]
      exact ih _ _

/-- Two recursive continuations that agree on piece lists of the threaded
length give the same scan. -/
theorem specSearch_congr {k₁ k₂ : GridMat → List Piece → Bool × GridMat × List Piece}
    {L : Nat} (hk₁ : ∀ g2 ps2, (k₁ g2 ps2).2.2.length = ps2.length)
    (hagree : ∀ g2 ps2, ps2.length = L → k₁ g2 ps2 = k₂ g2 ps2)
    (tmpl : Piece) (i : Nat) :
    ∀ (cs : List (Nat × Int × Int)) (g : GridMat) (ps : List Piece),
      ps.length = L →
      specSearch k₁ tmpl i cs g ps = specSearch k₂ tmpl i cs g ps := by
  intro cs
  induction cs with
  | nil => intro g ps _; rfl
  | cons c cs ih =>
    intro g ps hL
    obtain ⟨rot, x, y⟩ := c
    simp only [specSearch]
    by_cases hr : (add_piece g (tmpl.make_new x y rot)).1 = true
    · simp only [hr, eq_self_iff_true, if_true]
      rw [← hagree _ ps hL]
      by_cases hs : (k₁ (add_piece g (tmpl.make_new x y rot)).2 ps).1 = true
      · simp only [hs, eq_self_iff_true, if_true]
      · rw [Bool.not_eq_true] at hs
        simp only [hs, Bool.false_eq_true, if_false]
        refine ih _ _ ?_
        rw [hk₁]
        exact hL
    · rw [Bool.not_eq_true] at hr
      simp only [hr, Bool.false_eq_true, if_false]
      exact ih g ps hL

/-- One non-terminal, non-pruned step of solve_recursive is the linear
first-found scan of the flat candidate list in the loop order, with the
recursive call at index i+1 as continuation. -/
theorem solve_step_spec (g : GridMat) (ps : List Piece) (i ca : Nat)
    (hi : i < ps.length) (hnp : ¬ (ca ≤ i ∧ is_impossible g = true)) :
    solve_recursive g ps i ca
      = specSearch (fun g2 ps2 => solve_recursive g2 ps2 (i + 1) ca)
          (ps.getD i dummyPiece) i specCandidates g ps := by
  have hfl : ps.length - i = (ps.length - (i + 1)) + 1 := by omega
  show solveAux (ps.length - i) g ps i ca = _
  rw [hfl]
  simp only [solveAux]
  rw [if_neg hnp]
  rw [tryRots_eq_spec]
  show specSearch (fun g2 ps2 => solveAux (ps.length - (i + 1)) g2 ps2 (i + 1) ca)
    (ps.getD i dummyPiece) i specCandidates g ps = _
  refine specSearch_congr (L := ps.length)
    (fun g2 ps2 => solveAux_length _ g2 ps2 (i + 1) ca) ?_ _ i specCandidates g ps rfl
  intro g2 ps2 hlen
  show solveAux (ps.length - (i + 1)) g2 ps2 (i + 1) ca
    = solveAux (ps2.length - (i + 1)) g2 ps2 (i + 1) ca
  rw [hlen]

/-! ### Backtracking restores the state on failure -/

theorem tryYs_false_state {k : GridMat → List Piece → Bool × GridMat × List Piece}
    (hk : ∀ g2 ps2, (k g2 ps2).1 = false → k g2 ps2 = (false, g2, ps2))
    (tmpl : Piece) (i : Nat) (rot : Nat) (x : Int) :
    ∀ (ys : List Int) (g : GridMat) (ps : List Piece),
      (tryYs k tmpl i rot x ys g ps).1 = false →
      tryYs k tmpl i rot x ys g ps = (false, g, ps) := by
  intro ys
  induction ys with
  | nil => intro g ps _; rfl
  | cons y ys ih =>
    intro g ps hfail
    simp only [tryYs] at hfail ⊢
    by_cases hr : (add_piece g (tmpl.make_new x y rot)).1 = true
    · simp only [hr, eq_self_iff_true, if_true] at hfail ⊢
      by_cases hs : (k (add_piece g (tmpl.make_new x y rot)).2 ps).1 = true
      · simp only [hs, eq_self_iff_true, if_true] at hfail
        exact absurd hfail (by simp)
      · rw [Bool.not_eq_true] at hs
        simp only [hs, Bool.false_eq_true, if_false] at hfail ⊢
        have hks := hk _ _ hs
        rw [hks] at hfail ⊢
        simp only at hfail ⊢
        rw [remove_add_piece hr] at hfail ⊢
        exact ih g ps hfail
    · rw [Bool.not_eq_true] at hr
      simp only [hr, Bool.false_eq_true, if_false] at hfail ⊢
      exact ih g ps hfail

theorem tryXs_false_state {k : GridMat → List Piece → Bool × GridMat × List Piece}
    (hk : ∀ g2 ps2, (k g2 ps2).1 = false → k g2 ps2 = (false, g2, ps2))
    (tmpl : Piece) (i : Nat) (rot : Nat) :
    ∀ (xs : List Int) (g : GridMat) (ps : List Piece),
      (tryXs k tmpl i rot xs g ps).1 = false →
      tryXs k tmpl i rot xs g ps = (false, g, ps) := by
  intro xs
  induction xs with
  | nil => intro g ps _; rfl
  | cons x xs ih =>
    intro g ps hfail
    simp only [tryXs] at hfail ⊢
    by_cases hr : (tryYs k tmpl i rot x (ysFor x) g ps).1 = true
    · simp only [hr, eq_self_iff_true, if_true] at hfail ⊢
      exact absurd hfail (by simp)
    · rw [Bool.not_eq_true] at hr
      simp only [hr, Bool.false_eq_true, if_false] at hfail ⊢
      have hys := tryYs_false_state hk tmpl i rot x (ysFor x) g ps hr
      rw [hys] at hfail ⊢
      simp only at hfail ⊢
      exact ih g ps hfail

theorem tryRots_false_state {k : GridMat → List Piece → Bool × GridMat × List Piece}
    (hk : ∀ g2 ps2, (k g2 ps2).1 = false → k g2 ps2 = (false, g2, ps2))
    (tmpl : Piece) (i : Nat) :
    ∀ (rots : List Nat) (g : GridMat) (ps : List Piece),
      (tryRots k tmpl i rots g ps).1 = false →
      tryRots k tmpl i rots g ps = (false, g, ps) := by
  intro rots
  induction rots with
  | nil => intro g ps _; rfl
  | cons rot rots ih =>
    intro g ps hfail
    simp only [tryRots] at hfail ⊢
    by_cases hr : (tryXs k tmpl i rot allowed_xs_list g ps).1 = true
    · simp only [hr, eq_self_iff_true, if_true] at hfail ⊢
      exact absurd hfail (by simp)
    · rw [Bool.not_eq_true] at hr
      simp only [hr, Bool.false_eq_true, if_false] at hfail ⊢
      have hxs := tryXs_false_state hk tmpl i rot allowed_xs_list g ps hr
      rw [hxs] at hfail ⊢
      simp only at hfail ⊢
      exact ih g ps hfail

/-- When solve_recursive reports failure, the grid and the pieces list are
exactly as on entry (every successful placement was removed again). -/
theorem solveAux_false_state :
    ∀ (n : Nat) (g : GridMat) (ps : List Piece) (i ca : Nat),
      (solveAux n g ps i ca).1 = false →
      solveAux n g ps i ca = (false, g, ps) := by
  intro n
  induction n with
  | zero =>
    intro g ps i ca hfail
    exact absurd hfail (by simp [solveAux])
  | succ m ih =>
    intro g ps i ca hfail
    simp only [solveAux] at hfail ⊢
    by_cases hc : ca ≤ i ∧ is_impossible g = true
    · rw [if_pos hc]
    · rw [if_neg hc] at hfail ⊢
      exact tryRots_false_state (fun g2 ps2 => ih g2 ps2 (i + 1) ca) _ i rot_list g ps hfail

/-! ### Exhaustive failure when the free-cell count is not a multiple of 5 -/

theorem tryYs_allfail {k : GridMat → List Piece → Bool × GridMat × List Piece}
    (tmpl : Piece) (i : Nat) (rot : Nat) (x : Int) :
    ∀ (ys : List Int) (g : GridMat) (ps : List Piece),
      (∀ y ∈ ys, (add_piece g (tmpl.make_new x y rot)).1 = true →
        k (add_piece g (tmpl.make_new x y rot)).2 ps
          = (false, (add_piece g (tmpl.make_new x y rot)).2, ps)) →
      tryYs k tmpl i rot x ys g ps = (false, g, ps) := by
  intro ys
  induction ys with
  | nil => intro g ps _; rfl
  | cons y ys ih =>
    intro g ps hall
    simp only [tryYs]
    by_cases hr : (add_piece g (tmpl.make_new x y rot)).1 = true
    · simp only [hr, eq_self_iff_true, if_true]
      have hks := hall y (List.mem_cons_self _ _) hr
      rw [hks]
      simp only [Bool.false_eq_true, if_false]
      rw [remove_add_piece hr]
      exact ih g ps (fun y hy => hall y (List.mem_cons_of_mem _ hy))
    · rw [Bool.not_eq_true] at hr
      simp only [hr, Bool.false_eq_true, if_false]
      exact ih g ps (fun y hy => hall y (List.mem_cons_of_mem _ hy))

theorem tryXs_allfail {k : GridMat → List Piece → Bool × GridMat × List Piece}
    (tmpl : Piece) (i : Nat) (rot : Nat) :
    ∀ (xs : List Int) (g : GridMat) (ps : List Piece),
      (∀ x ∈ xs, ∀ y ∈ ysFor x, (add_piece g (tmpl.make_new x y rot)).1 = true →
        k (add_piece g (tmpl.make_new x y rot)).2 ps
          = (false, (add_piece g (tmpl.make_new x y rot)).2, ps)) →
      tryXs k tmpl i rot xs g ps = (false, g, ps) := by
  intro xs
  induction xs with
  | nil => intro g ps _; rfl
  | cons x xs ih =>
    intro g ps hall
    simp only [tryXs]
    have hys := tryYs_allfail tmpl i rot x (ysFor x) g ps
      (fun y hy => hall x (List.mem_cons_self _ _) y hy)
    rw [hys]
    simp only [Bool.false_eq_true, if_false]
    exact ih g ps (fun x hx => hall x (List.mem_cons_of_mem _ hx))

theorem tryRots_allfail {k : GridMat → List Piece → Bool × GridMat × List Piece}
    (tmpl : Piece) (i : Nat) :
    ∀ (rots : List Nat) (g : GridMat) (ps : List Piece),
      (∀ rot ∈ rots, ∀ x ∈ allowed_xs_list, ∀ y ∈ ysFor x,
        (add_piece g (tmpl.make_new x y rot)).1 = true →
        k (add_piece g (tmpl.make_new x y rot)).2 ps
          = (false, (add_piece g (tmpl.make_new x y rot)).2, ps)) →
      tryRots k tmpl i rots g ps = (false, g, ps) := by
  intro rots
  induction rots with
  | nil => intro g ps _; rfl
  | cons rot rots ih =>
    intro g ps hall
    simp only [tryRots]
    have hxs := tryXs_allfail tmpl i rot allowed_xs_list g ps
      (fun x hx => hall rot (List.mem_cons_self _ _) x hx)
    rw [hxs]
    simp only [Bool.false_eq_true, if_false]
    exact ih g ps (fun r hr => hall r (List.mem_cons_of_mem _ hr))

/-- If the free-cell count of the grid is not a multiple of 5 (and free
cells only sit in the playable region), the search cannot succeed: every
placement keeps the count ≢ 0 (mod 5), so the infeasibility check prunes
every branch at the first index ≥ check_at, and the state is restored. -/
theorem solveAux_unsolvable (ps : List Piece) (ca : Nat)
    (hps : ∀ p ∈ ps, PieceTypeOK p.pieceType) (hca : ca < ps.length) :
    ∀ (n : Nat) (g : GridMat) (i : Nat),
      n = ps.length - i → i < ps.length →
      freeOnlyAllowed g → countFree g % 5 ≠ 0 →
      solveAux n g ps i ca = (false, g, ps) := by
  intro n
  induction n with
  | zero =>
    intro g i hn hi _ _
    omega
  | succ m ih =>
    intro g i hn hi hfo hcnt
    simp only [solveAux]
    by_cases hci : ca ≤ i
    · have himp : is_impossible g = true := by
        cases him : is_impossible g
        · exact absurd (is_impossible_false_count hfo him) hcnt
        · rfl
      rw [if_pos ⟨hci, himp⟩]
    · rw [if_neg (fun hc => hci hc.1)]
      apply tryRots_allfail
      intro rot _ x _ y _ hsucc
      have htmpl : ps.getD i dummyPiece ∈ ps := by
        rw [List.getD_eq_getElem _ _ hi]
        exact List.getElem_mem hi
      have hOK := hps _ htmpl
      obtain ⟨hnd5, hlen5⟩ := make_new_points_len_nodup hOK x y rot
      have hty : 1 ≤ ((ps.getD i dummyPiece).make_new x y rot).pieceType := by
        rw [make_new_pieceType]
        exact hOK.1
      have hdec := countFree_add_piece hsucc hnd5 hty
      rw [hlen5] at hdec
      apply ih
      · omega
      · omega
      · exact freeOnlyAllowed_add_piece hfo hsucc
      · omega

/-! ### Operation traces over a Grid (for the Hidden-cell invariant) -/

/-- The public mutating/querying operations of Grid used by the solver. -/
inductive GOp where
  | add (p : Piece)
  | addMany (ps : List Piece)
  | check
  | remove (p : Piece)
  deriving DecidableEq

/-- Grid.add_pieces, threading the multiset of currently placed pieces. -/
def addManyPlaced : GridMat × List Piece → List Piece → GridMat × List Piece
  | st, [] => st
  | (g, pl), p :: rest =>
    let r := add_piece g p
    if r.1 then addManyPlaced (r.2, p :: pl) rest else (r.2, pl)

/-- One Grid operation on the state (grid, currently placed pieces). -/
def stepOp : GridMat × List Piece → GOp → GridMat × List Piece
  | (g, pl), .add p =>
    let r := add_piece g p
    (r.2, if r.1 then p :: pl else pl)
  | st, .addMany ps => addManyPlaced st ps
  | (g, pl), .check => ((is_impossible_call g).2, pl)
  | (g, pl), .remove p => (remove_piece g p, pl.erase p)

def execOps : GridMat × List Piece → List GOp → GridMat × List Piece
  | st, [] => st
  | st, op :: rest => execOps (stepOp st op) rest

/-- A trace is legal when each remove targets a piece that was previously
placed successfully and not yet removed (the documented precondition of
Grid.remove_piece). -/
def legalOps : GridMat × List Piece → List GOp → Bool
  | _, [] => true
  | st, op :: rest =>
    (match op with
     | GOp.remove p => decide (p ∈ st.2)
     | _ => true) && legalOps (stepOp st op) rest

/-- The grid produced by the placed-tracking fold is the add_pieces grid. -/
theorem addManyPlaced_grid :
    ∀ (ps : List Piece) (st : GridMat × List Piece),
      (addManyPlaced st ps).1 = (add_pieces st.1 ps).2 := by
  intro ps
  induction ps with
  | nil => intro st; rfl
  | cons p rest ih =>
    intro st
    obtain ⟨g, pl⟩ := st
    simp only [addManyPlaced, add_pieces]
    by_cases hr : (add_piece g p).1 = true
    · simp only [hr, eq_self_iff_true, if_true]
      exact ih _
    · rw [Bool.not_eq_true] at hr
      simp only [hr, Bool.false_eq_true, if_false]

/-- Cells Hidden in the fresh base grid are still Hidden. -/
def HiddenInv (g : GridMat) : Prop :=
  ∀ p ∈ allPairs121, getCell initGrid p.1 p.2 = HIDDEN → getCell g p.1 p.2 = HIDDEN

instance (g : GridMat) : Decidable (HiddenInv g) := by
  unfold HiddenInv; infer_instance

/-- Every placed piece occupies in-bounds cells that are not Hidden in the
base grid nor Hidden now. -/
def PlacedInv (st : GridMat × List Piece) : Prop :=
  ∀ q ∈ st.2, ∀ pt ∈ q.points, SafeP pt ∧ getCell initGrid pt.1 pt.2 ≠ HIDDEN ∧
    getCell st.1 pt.1 pt.2 ≠ HIDDEN

instance (st : GridMat × List Piece) : Decidable (PlacedInv st) := by
  unfold PlacedInv; infer_instance

def StInv (st : GridMat × List Piece) : Prop := HiddenInv st.1 ∧ PlacedInv st

instance (st : GridMat × List Piece) : Decidable (StInv st) := by
  unfold StInv; infer_instance

theorem stInv_add {st : GridMat × List Piece} (p : Piece) (h : StInv st) :
    StInv (stepOp st (GOp.add p)) := by
  obtain ⟨g, pl⟩ := st
  obtain ⟨hh, hp⟩ := h
  by_cases hr : (add_piece g p).1 = true
  · have heff := fun (q : Int × Int) (hq : SafeP q) => add_piece_getCell hr hq
    have hIdx : p.index ≠ HIDDEN := by
      simp only [Piece.index, HIDDEN]
      omega
    have hptsfree := add_piece_points_free hr
    have hptsnh : ∀ pt ∈ p.points, getCell initGrid pt.1 pt.2 ≠ HIDDEN := by
      intro pt hpt
      intro hbase
      have := hh pt ((safeP_iff_mem121 pt).mp (hptsfree pt hpt).1) hbase
      rw [(hptsfree pt hpt).2] at this
      exact absurd this (by decide)
    have hgrid : ∀ q : Int × Int, SafeP q → getCell (add_piece g p).2 q.1 q.2
        = if q ∈ p.points then p.index else getCell g q.1 q.2 := heff
    constructor
    · intro q hq hbase
      have hqs : SafeP q := (safeP_iff_mem121 q).mpr hq
      have hqnp : q ∉ p.points := fun hmem => hptsnh q hmem hbase
      show getCell (stepOp (g, pl) (GOp.add p)).1 q.1 q.2 = HIDDEN
      have hst : (stepOp (g, pl) (GOp.add p)).1 = (add_piece g p).2 := rfl
      rw [hst, hgrid q hqs, if_neg hqnp]
      exact hh q hq hbase
    · intro q hq pt hpt
      have hpl : (stepOp (g, pl) (GOp.add p)).2 = if (add_piece g p).1 then p :: pl else pl := rfl
      rw [hpl, hr] at hq
      simp only [eq_self_iff_true, if_true] at hq
      have hst : (stepOp (g, pl) (GOp.add p)).1 = (add_piece g p).2 := rfl
      rcases List.mem_cons.mp hq with rfl | hqpl
      · refine ⟨(hptsfree pt hpt).1, hptsnh pt hpt, ?_⟩
        rw [hst, hgrid pt (hptsfree pt hpt).1, if_pos hpt]
        exact hIdx
      · obtain ⟨hs, hb, hc⟩ := hp q hqpl pt hpt
        refine ⟨hs, hb, ?_⟩
        rw [hst, hgrid pt hs]
        by_cases hmem : pt ∈ p.points
        · rw [if_pos hmem]
          exact hIdx
        · rw [if_neg hmem]
          exact hc
  · rw [Bool.not_eq_true] at hr
    have hst : stepOp (g, pl) (GOp.add p) = ((add_piece g p).2, pl) := by
      simp only [stepOp, hr, Bool.false_eq_true, if_false]
    rw [hst, add_piece_snd_of_false hr]
    exact ⟨hh, hp⟩

theorem stInv_remove {st : GridMat × List Piece} (p : Piece)
    (hmem : p ∈ st.2) (h : StInv st) : StInv (stepOp st (GOp.remove p)) := by
  obtain ⟨g, pl⟩ := st
  obtain ⟨hh, hp⟩ := h
  have hpts : ∀ pt ∈ p.points, SafeP pt ∧ getCell g pt.1 pt.2 ≠ HIDDEN := by
    intro pt hpt
    obtain ⟨hs, _, hc⟩ := hp p hmem pt hpt
    exact ⟨hs, hc⟩
  have hgrid : ∀ q : Int × Int, SafeP q → getCell (remove_piece g p) q.1 q.2
      = if q ∈ p.points then FREE else getCell g q.1 q.2 := by
    intro q hq
    exact getCell_foldl_set FREE (by decide) p.points g hpts q hq
  constructor
  · intro q hq hbase
    have hqs : SafeP q := (safeP_iff_mem121 q).mpr hq
    have hqnp : q ∉ p.points := by
      intro hmem'
      exact (hp p hmem q hmem').2.1 hbase
    show getCell (remove_piece g p) q.1 q.2 = HIDDEN
    rw [hgrid q hqs, if_neg hqnp]
    exact hh q hq hbase
  · intro q hq pt hpt
    have hqpl : q ∈ pl := List.mem_of_mem_erase hq
    obtain ⟨hs, hb, hc⟩ := hp q hqpl pt hpt
    refine ⟨hs, hb, ?_⟩
    show getCell (remove_piece g p) pt.1 pt.2 ≠ HIDDEN
    rw [hgrid pt hs]
    by_cases hm : pt ∈ p.points
    · rw [if_pos hm]
      decide
    · rw [if_neg hm]
      exact hc

theorem stInv_addMany :
    ∀ (ps : List Piece) (st : GridMat × List Piece),
      StInv st → StInv (addManyPlaced st ps) := by
  intro ps
  induction ps with
  | nil => intro st h; exact h
  | cons p rest ih =>
    intro st h
    obtain ⟨g, pl⟩ := st
    simp only [addManyPlaced]
    by_cases hr : (add_piece g p).1 = true
    · simp only [hr, eq_self_iff_true, if_true]
      have := stInv_add p h
      have hst : stepOp (g, pl) (GOp.add p) = ((add_piece g p).2, p :: pl) := by
        simp only [stepOp, hr, eq_self_iff_true, if_true]
      rw [hst] at this
      exact ih _ this
    · rw [Bool.not_eq_true] at hr
      simp only [hr, Bool.false_eq_true, if_false]
      have hsnd := add_piece_snd_of_false hr
      rw [hsnd]
      exact h

theorem stInv_step {st : GridMat × List Piece} {op : GOp}
    (hleg : (match op with | GOp.remove p => decide (p ∈ st.2) | _ => true) = true)
    (h : StInv st) : StInv (stepOp st op) := by
  cases op with
  | add p => exact stInv_add p h
  | addMany ps => exact stInv_addMany ps st h
  | check =>
    obtain ⟨g, pl⟩ := st
    exact h
  | remove p =>
    have hmem : p ∈ st.2 := by
      simpa using hleg
    exact stInv_remove p hmem h

/-- Legal operation traces preserve the state invariant. -/
theorem stInv_exec :
    ∀ (ops : List GOp) (st : GridMat × List Piece),
      legalOps st ops = true → StInv st → StInv (execOps st ops) := by
  intro ops
  induction ops with
  | nil => intro st _ h; exact h
  | cons op rest ih =>
    intro st hleg h
    simp only [legalOps, Bool.and_eq_true] at hleg
    exact ih _ hleg.2 (stInv_step hleg.1 h)

/-! ### Concrete example configurations -/

/-- Free region of sizes 3 + 7: a corner triangle at the left edge and a
seven-cell strip at the right edge (all other playable cells blocked). -/
def region37 : List (Int × Int) :=
  [(1, 5), (1, 6), (2, 5), (9, 1), (9, 2), (9, 3), (9, 4), (9, 5), (8, 1), (8, 2)]

def grid37 : GridMat :=
  apply_blocked (allowedPairs.filter (fun p => decide (p ∉ region37)))

/-- Free region of sizes 5 + 10. -/
def region510 : List (Int × Int) :=
  [(1, 5), (1, 6), (2, 5), (2, 4), (3, 4),
   (9, 1), (9, 2), (9, 3), (9, 4), (9, 5), (8, 1), (8, 2), (8, 3), (8, 4), (8, 5)]

def grid510 : GridMat :=
  apply_blocked (allowedPairs.filter (fun p => decide (p ∉ region510)))

/-- Five blocked cells that isolate the three-cell corner region
{(1,5), (1,6), (2,5)} from the rest of the board. -/
def blockedIso : List (Int × Int) := [(2, 4), (3, 4), (3, 5), (2, 6), (1, 7)]

def gridIso : GridMat := apply_blocked blockedIso

/-- The twelve catalog pieces in index order (prepare_problem with no
excluded pieces). -/
def piecesAll : List Piece := ((List.range NUM_PIECES).map (· + 1)).map get_piece

/-! ### Computing concrete components -/

theorem reach_mem_of_closed {g : GridMat} {S : List (Int × Int)} {c : Int × Int}
    (hc : c ∈ S)
    (hcl : ∀ a ∈ S, ∀ b ∈ neighborsOf a.1 a.2, getCell g b.1 b.2 = FREE → b ∈ S) :
    ∀ b, Reach g c b → b ∈ S := by
  intro b h
  induction h with
  | refl => exact hc
  | @tail a q hr hstep ihr => exact hcl a ihr q hstep.1 hstep.2

theorem component_ncard_eq {g : GridMat} {S : List (Int × Int)} {c : Int × Int}
    (hc : c ∈ S) (hnd : S.Nodup)
    (hcl : ∀ a ∈ S, ∀ b ∈ neighborsOf a.1 a.2, getCell g b.1 b.2 = FREE → b ∈ S)
    (hreach : ∀ b ∈ S, Reach g c b) :
    (component g c).ncard = S.length := by
  have hcomp : component g c = ↑S.toFinset := by
    apply Set.ext
    intro p
    simp only [component, Set.mem_setOf_eq, Finset.mem_coe, List.mem_toFinset]
    exact ⟨fun h => reach_mem_of_closed hc hcl p h, fun h => hreach p h⟩
  rw [hcomp, Set.ncard_coe_Finset, List.toFinset_card_of_nodup hnd]

theorem grid37_compA : (component grid37 (1, 5)).ncard = 3 := by
  refine component_ncard_eq (S := [(1, 5), (1, 6), (2, 5)])
    (by decide) (by decide) (by decide) ?_
  have h1 : Reach grid37 (1, 5) (1, 6) :=
    Relation.ReflTransGen.single ⟨by decide, by decide⟩
  have h2 : Reach grid37 (1, 5) (2, 5) :=
    Relation.ReflTransGen.single ⟨by decide, by decide⟩
  intro b hb
  simp only [List.mem_cons, List.not_mem_nil, or_false] at hb
  rcases hb with rfl | rfl | rfl
  · exact Relation.ReflTransGen.refl
  · exact h1
  · exact h2

theorem grid37_compB : (component grid37 (9, 1)).ncard = 7 := by
  refine component_ncard_eq
    (S := [(9, 1), (9, 2), (9, 3), (9, 4), (9, 5), (8, 1), (8, 2)])
    (by decide) (by decide) (by decide) ?_
  have h2 : Reach grid37 (9, 1) (9, 2) :=
    Relation.ReflTransGen.single ⟨by decide, by decide⟩
  have h3 : Reach grid37 (9, 1) (9, 3) :=
    Relation.ReflTransGen.tail h2 ⟨by decide, by decide⟩
  have h4 : Reach grid37 (9, 1) (9, 4) :=
    Relation.ReflTransGen.tail h3 ⟨by decide, by decide⟩
  have h5 : Reach grid37 (9, 1) (9, 5) :=
    Relation.ReflTransGen.tail h4 ⟨by decide, by decide⟩
  have h6 : Reach grid37 (9, 1) (8, 1) :=
    Relation.ReflTransGen.single ⟨by decide, by decide⟩
  have h7 : Reach grid37 (9, 1) (8, 2) :=
    Relation.ReflTransGen.tail h6 ⟨by decide, by decide⟩
  intro b hb
  simp only [List.mem_cons, List.not_mem_nil, or_false] at hb
  rcases hb with rfl | rfl | rfl | rfl | rfl | rfl | rfl
  · exact Relation.ReflTransGen.refl
  · exact h2
  · exact h3
  · exact h4
  · exact h5
  · exact h6
  · exact h7

theorem grid510_compA : (component grid510 (1, 5)).ncard = 5 := by
  refine component_ncard_eq (S := [(1, 5), (1, 6), (2, 5), (2, 4), (3, 4)])
    (by decide) (by decide) (by decide) ?_
  have h1 : Reach grid510 (1, 5) (1, 6) :=
    Relation.ReflTransGen.single ⟨by decide, by decide⟩
  have h2 : Reach grid510 (1, 5) (2, 5) :=
    Relation.ReflTransGen.single ⟨by decide, by decide⟩
  have h3 : Reach grid510 (1, 5) (2, 4) :=
    Relation.ReflTransGen.tail h2 ⟨by decide, by decide⟩
  have h4 : Reach grid510 (1, 5) (3, 4) :=
    Relation.ReflTransGen.tail h3 ⟨by decide, by decide⟩
  intro b hb
  simp only [List.mem_cons, List.not_mem_nil, or_false] at hb
  rcases hb with rfl | rfl | rfl | rfl | rfl
  · exact Relation.ReflTransGen.refl
  · exact h1
  · exact h2
  · exact h3
  · exact h4

theorem grid510_compB : (component grid510 (9, 1)).ncard = 10 := by
  refine component_ncard_eq
    (S := [(9, 1), (9, 2), (9, 3), (9, 4), (9, 5),
      (8, 1), (8, 2), (8, 3), (8, 4), (8, 5)])
    (by decide) (by decide) (by decide) ?_
  have h2 : Reach grid510 (9, 1) (9, 2) :=
    Relation.ReflTransGen.single ⟨by decide, by decide⟩
  have h3 : Reach grid510 (9, 1) (9, 3) :=
    Relation.ReflTransGen.tail h2 ⟨by decide, by decide⟩
  have h4 : Reach grid510 (9, 1) (9, 4) :=
    Relation.ReflTransGen.tail h3 ⟨by decide, by decide⟩
  have h5 : Reach grid510 (9, 1) (9, 5) :=
    Relation.ReflTransGen.tail h4 ⟨by decide, by decide⟩
  have g1 : Reach grid510 (9, 1) (8, 1) :=
    Relation.ReflTransGen.single ⟨by decide, by decide⟩
  have g2 : Reach grid510 (9, 1) (8, 2) :=
    Relation.ReflTransGen.tail g1 ⟨by decide, by decide⟩
  have g3 : Reach grid510 (9, 1) (8, 3) :=
    Relation.ReflTransGen.tail g2 ⟨by decide, by decide⟩
  have g4 : Reach grid510 (9, 1) (8, 4) :=
    Relation.ReflTransGen.tail g3 ⟨by decide, by decide⟩
  have g5 : Reach grid510 (9, 1) (8, 5) :=
    Relation.ReflTransGen.tail g4 ⟨by decide, by decide⟩
  intro b hb
  simp only [List.mem_cons, List.not_mem_nil, or_false] at hb
  rcases hb with rfl | rfl | rfl | rfl | rfl | rfl | rfl | rfl | rfl | rfl
  · exact Relation.ReflTransGen.refl
  · exact h2
  · exact h3
  · exact h4
  · exact h5
  · exact g1
  · exact g2
  · exact g3
  · exact g4
  · exact g5

theorem gridIso_comp : (component gridIso (1, 5)).ncard = 3 := by
  refine component_ncard_eq (S := [(1, 5), (1, 6), (2, 5)])
    (by decide) (by decide) (by decide) ?_
  have h1 : Reach gridIso (1, 5) (1, 6) :=
    Relation.ReflTransGen.single ⟨by decide, by decide⟩
  have h2 : Reach gridIso (1, 5) (2, 5) :=
    Relation.ReflTransGen.single ⟨by decide, by decide⟩
  intro b hb
  simp only [List.mem_cons, List.not_mem_nil, or_false] at hb
  rcases hb with rfl | rfl | rfl
  · exact Relation.ReflTransGen.refl
  · exact h1
  · exact h2

/-! ### The claims -/

/-- C1: Grid.add_piece succeeds iff every one of the target cells is
currently Free (in bounds and FREE); on success it mutates exactly the
target cells to the piece index and leaves every other cell unchanged; on
failure the grid is returned exactly as it was. -/
theorem claim_C1_try_place (g : GridMat) (p : Piece) :
    ((add_piece g p).1 = true ↔ ∀ q ∈ p.points, SafeP q ∧ getCell g q.1 q.2 = FREE) ∧
    ((add_piece g p).1 = true → ∀ q : Int × Int, SafeP q →
      getCell (add_piece g p).2 q.1 q.2
        = if q ∈ p.points then p.index else getCell g q.1 q.2) ∧
    ((add_piece g p).1 = false → (add_piece g p).2 = g) := by
  refine ⟨?_, ?_, ?_⟩
  · rw [add_piece_succ_iff]
    constructor
    · intro h q hq
      exact is_point_free_iff.mp (h q hq)
    · intro h q hq
      exact is_point_free_iff.mpr (h q hq)
  · intro h q hq
    exact add_piece_getCell h hq
  · intro h
    exact add_piece_snd_of_false h

/-- Witness for C1 at a concrete grid and placement. -/
theorem claim_C1_witness :
    ((add_piece initGrid (mkPiece 1 3 3 0)).1 = true ↔
      ∀ q ∈ (mkPiece 1 3 3 0).points, SafeP q ∧ getCell initGrid q.1 q.2 = FREE) ∧
    getCell (add_piece initGrid (mkPiece 1 3 3 0)).2 3 3
      = (if ((3 : Int), (3 : Int)) ∈ (mkPiece 1 3 3 0).points
          then (mkPiece 1 3 3 0).index else getCell initGrid 3 3) :=
  ⟨(claim_C1_try_place initGrid (mkPiece 1 3 3 0)).1,
   (claim_C1_try_place initGrid (mkPiece 1 3 3 0)).2.1 (by decide) (3, 3) (by decide)⟩

/-- C2: Grid.is_impossible returns true iff some playable free cell lies
in a connected component (via the precomputed neighbor table) whose size
is not a multiple of 5; in particular it is false on a grid without free
cells, true when the free cells form two regions of sizes 3 and 7, and
false when they form regions of sizes 5 and 10. -/
theorem claim_C2_is_impossible :
    (∀ g : GridMat, is_impossible g = true ↔
      ∃ c ∈ allowedPairs, getCell g c.1 c.2 = FREE ∧
        (component g c).ncard % 5 ≠ 0) ∧
    (∀ g : GridMat, (∀ p ∈ allPairs121, getCell g p.1 p.2 ≠ FREE) →
      is_impossible g = false) ∧
    (is_impossible grid37 = true ∧ (component grid37 (1, 5)).ncard = 3 ∧
      (component grid37 (9, 1)).ncard = 7) ∧
    (is_impossible grid510 = false ∧ (component grid510 (1, 5)).ncard = 5 ∧
      (component grid510 (9, 1)).ncard = 10) := by
  refine ⟨is_impossible_iff, ?_, ⟨by decide, grid37_compA, grid37_compB⟩,
    ⟨by decide, grid510_compA, grid510_compB⟩⟩
  intro g h
  cases him : is_impossible g
  · rfl
  · obtain ⟨c, hc, hcf, _⟩ := (is_impossible_iff g).mp him
    exact absurd hcf (h c (mem121_of_allowed hc))

/-- Witness for C2: the iff and the zero-free-cell case instantiated on
the fully blocked board. -/
theorem claim_C2_witness :
    (is_impossible (apply_blocked allowedPairs) = true ↔
      ∃ c ∈ allowedPairs, getCell (apply_blocked allowedPairs) c.1 c.2 = FREE ∧
        (component (apply_blocked allowedPairs) c).ncard % 5 ≠ 0) ∧
    is_impossible (apply_blocked allowedPairs) = false :=
  ⟨claim_C2_is_impossible.1 (apply_blocked allowedPairs),
   claim_C2_is_impossible.2.1 (apply_blocked allowedPairs) (by decide)⟩

/-- C3: at a non-terminal, non-pruned index the solver enumerates the
candidate placements in the fixed order rotation-major, then allowed x
columns, then the column-dependent allowed y rows, with first-found
semantics: the first candidate whose placement succeeds and whose
recursive call succeeds is kept (pieces[i] := piece, immediate success),
and a recursive failure removes the placement and continues. -/
theorem claim_C3_enumeration_order (g : GridMat) (ps : List Piece) (i ca : Nat)
    (hi : i < ps.length) (hnp : ¬ (ca ≤ i ∧ is_impossible g = true)) :
    solve_recursive g ps i ca
      = specSearch (fun g2 ps2 => solve_recursive g2 ps2 (i + 1) ca)
          (ps.getD i dummyPiece) i specCandidates g ps :=
  solve_step_spec g ps i ca hi hnp

/-- Witness for C3 on a concrete instance. -/
theorem claim_C3_witness :
    solve_recursive (apply_blocked allowedPairs) [get_piece 1] 0 1
      = specSearch (fun g2 ps2 => solve_recursive g2 ps2 1 1)
          ([get_piece 1].getD 0 dummyPiece) 0 specCandidates
          (apply_blocked allowedPairs) [get_piece 1] :=
  claim_C3_enumeration_order (apply_blocked allowedPairs) [get_piece 1] 0 1
    (by decide) (fun hc => by omega)

/-- C4: at a non-terminal index i with i ≥ check_at, the solver runs
is_impossible before enumerating anything, and a true answer fails the
branch immediately with the state untouched; with i < check_at no check
influences the result — the solver goes straight to the enumeration. -/
theorem claim_C4_check_at (g : GridMat) (ps : List Piece) (i ca : Nat) :
    (ca ≤ i → i < ps.length → is_impossible g = true →
      solve_recursive g ps i ca = (false, g, ps)) ∧
    (i < ca → i < ps.length →
      solve_recursive g ps i ca
        = specSearch (fun g2 ps2 => solve_recursive g2 ps2 (i + 1) ca)
            (ps.getD i dummyPiece) i specCandidates g ps) := by
  constructor
  · intro hca hi himp
    have hfl : ps.length - i = (ps.length - (i + 1)) + 1 := by omega
    show solveAux (ps.length - i) g ps i ca = _
    rw [hfl]
    simp only [solveAux]
    rw [if_pos ⟨hca, himp⟩]
  · intro hca hi
    exact solve_step_spec g ps i ca hi (fun hc => by omega)

/-- Witness for C4: pruning on the full fresh board (one free component
of size 61). -/
theorem claim_C4_witness :
    solve_recursive initGrid [get_piece 1] 0 0 = (false, initGrid, [get_piece 1]) :=
  (claim_C4_check_at initGrid [get_piece 1] 0 0).1 (Nat.le_refl 0) (by decide) (by decide)

/-- C5 counterexample: for a placement that overlaps a non-free cell,
try_place fails (leaving the grid unchanged) and the subsequent remove
unconditionally frees the 5 cells, changing the number of Free cells —
the claimed invariance does not hold for every grid state and placement. -/
theorem claim_C5_counterexample :
    countFree (remove_piece
        (add_piece (setCell initGrid 1 5 BLOCKED) (mkPiece 1 1 5 0)).2
        (mkPiece 1 1 5 0))
      ≠ countFree (setCell initGrid 1 5 BLOCKED) := by decide

/-- C5 (amended): when try_place succeeds, remove of the same placement
restores the grid exactly, so the number of Free cells is unchanged by the
round trip. -/
theorem claim_C5_roundtrip (g : GridMat) (p : Piece)
    (h : (add_piece g p).1 = true) :
    countFree (remove_piece (add_piece g p).2 p) = countFree g ∧
    remove_piece (add_piece g p).2 p = g := by
  have hres := remove_add_piece h
  exact ⟨by rw [hres], hres⟩

/-- Witness for the amended C5. -/
theorem claim_C5_witness :
    countFree (remove_piece (add_piece initGrid (mkPiece 1 3 3 0)).2 (mkPiece 1 3 3 0))
      = countFree initGrid ∧
    remove_piece (add_piece initGrid (mkPiece 1 3 3 0)).2 (mkPiece 1 3 3 0) = initGrid :=
  claim_C5_roundtrip initGrid (mkPiece 1 3 3 0) (by decide)

/-- C6: Grid.is_impossible is read-only — the search runs on a scratch
copy, so a call (and any number of successive calls) leaves the grid field
exactly as it was; the transient VISITED marker never escapes. -/
theorem claim_C6_readonly :
    (∀ g : GridMat, (is_impossible_call g).2 = g) ∧
    (∀ (n : Nat) (g : GridMat), is_impossible_iter n g = g) := by
  refine ⟨fun g => rfl, ?_⟩
  intro n
  induction n with
  | zero => intro g; rfl
  | succ m ih => intro g; exact ih g

/-- C7 counterexample: on the board with zero problem-specific blocked
cells the solver with all 12 pieces cannot succeed — the playable region
has 61 free cells (not 60), and 61 is not a multiple of 5. -/
theorem claim_C7_counterexample :
    (solve_recursive initGrid piecesAll 0 3).1 = false := by
  have h := solveAux_unsolvable piecesAll 3 (by decide) (by decide)
    (piecesAll.length - 0) initGrid 0 rfl (by decide) (by decide) (by decide)
  show (solveAux (piecesAll.length - 0) initGrid piecesAll 0 3).1 = false
  rw [h]

/-- C7 (amended): a 0-blocked-cell board has 61 playable free cells, so
prepare_problem rejects it (the is_impossible assertion fires) and
solve_recursive with all 12 pieces fails for every check_at below the
piece count, leaving grid and pieces untouched. -/
theorem claim_C7_board_not_coverable (ca : Nat) (hca : ca < NUM_PIECES) :
    countFree initGrid = 61 ∧
    solve_recursive initGrid piecesAll 0 ca = (false, initGrid, piecesAll) ∧
    prepare_problem [] [] = none := by
  have hlen : piecesAll.length = NUM_PIECES := by decide
  refine ⟨by decide, ?_, by decide⟩
  exact solveAux_unsolvable piecesAll ca (by decide) (by omega)
    (piecesAll.length - 0) initGrid 0 rfl (by decide) (by decide) (by decide)

/-- Witness for the amended C7 at the default check_at = 3. -/
theorem claim_C7_witness :
    countFree initGrid = 61 ∧
    solve_recursive initGrid piecesAll 0 3 = (false, initGrid, piecesAll) ∧
    prepare_problem [] [] = none :=
  claim_C7_board_not_coverable 3 (by decide)

/-- C8: a problem configuration whose blocked cells leave some connected
free region of size not divisible by 5 is rejected by prepare_problem (the
assertion fails) before any search can start. -/
theorem claim_C8_prepare_rejects (blocked : List (Int × Int)) (excluded : List Nat)
    (h : ∃ c ∈ allowedPairs, getCell (apply_blocked blocked) c.1 c.2 = FREE ∧
      (component (apply_blocked blocked) c).ncard % 5 ≠ 0) :
    prepare_problem blocked excluded = none := by
  have himp : is_impossible (apply_blocked blocked) = true :=
    (is_impossible_iff _).mpr h
  simp only [prepare_problem, himp, if_pos]

/-- Witness for C8: blocking five cells isolates a three-cell region, and
prepare_problem rejects the configuration. -/
theorem claim_C8_witness : prepare_problem blockedIso [] = none :=
  claim_C8_prepare_rejects blockedIso []
    ⟨(1, 5), by decide, by decide, by
      show (component gridIso (1, 5)).ncard % 5 ≠ 0
      rw [gridIso_comp]
      decide⟩

/-- C9: under any legal sequence of Grid operations (add_piece,
add_pieces, is_impossible, and remove_piece of a previously placed and not
yet removed piece), cells Hidden after initialization stay Hidden; the
cells of a successful placement are never Hidden; and the precomputed
neighbor lists contain no Hidden cell. -/
theorem claim_C9_hidden_cells :
    (∀ (st : GridMat × List Piece) (ops : List GOp),
      legalOps st ops = true → StInv st →
      ∀ p ∈ allPairs121, getCell initGrid p.1 p.2 = HIDDEN →
        getCell (execOps st ops).1 p.1 p.2 = HIDDEN) ∧
    (∀ (g : GridMat) (p : Piece), (add_piece g p).1 = true →
      ∀ pt ∈ p.points, getCell g pt.1 pt.2 ≠ HIDDEN) ∧
    (∀ (x y : Int), ∀ q ∈ neighborsOf x y, getCell initGrid q.1 q.2 ≠ HIDDEN) := by
  refine ⟨?_, ?_, ?_⟩
  · intro st ops hleg hinv p hp hbase
    exact (stInv_exec ops st hleg hinv).1 p hp hbase
  · intro g p h pt hpt
    have := (add_piece_points_free h pt hpt).2
    rw [this]
    decide
  · intro x y q hq
    have hv := (mem_neighborsOf_elim hq).2
    simp only [is_point_valid, Bool.and_eq_true, Bool.not_eq_true', Bool.or_eq_false_iff,
      decide_eq_false_iff_not] at hv
    exact hv.2.1

/-- Witness for C9 on a concrete legal trace from the fresh board. -/
theorem claim_C9_witness :
    getCell (execOps (initGrid, [])
      [GOp.add (mkPiece 1 3 3 0), GOp.check, GOp.remove (mkPiece 1 3 3 0),
        GOp.addMany [mkPiece 2 5 5 0]]).1 0 0 = HIDDEN :=
  claim_C9_hidden_cells.1 (initGrid, [])
    [GOp.add (mkPiece 1 3 3 0), GOp.check, GOp.remove (mkPiece 1 3 3 0),
      GOp.addMany [mkPiece 2 5 5 0]]
    (by decide) (by decide) (0, 0) (by decide) (by decide)

/-- C10: the freshly constructed grid has exactly 61 Free cells, namely
the (x, y) with x in allowed_xs_list and y in allowed_ys_lists[x-1]; every
other cell of the 11x11 matrix is Hidden or Blocked. -/
theorem claim_C10_initial_grid :
    countFree initGrid = 61 ∧
    (∀ p ∈ allPairs121, (getCell initGrid p.1 p.2 = FREE ↔ p ∈ allowedPairs)) ∧
    (∀ p ∈ allPairs121, p ∉ allowedPairs →
      getCell initGrid p.1 p.2 = HIDDEN ∨ getCell initGrid p.1 p.2 = BLOCKED) := by
  refine ⟨by decide, by decide, by decide⟩

/-- Witness for C10 at concrete cells. -/
theorem claim_C10_witness :
    (getCell initGrid 5 5 = FREE ↔ ((5 : Int), (5 : Int)) ∈ allowedPairs) ∧
    (getCell initGrid 0 0 = HIDDEN ∨ getCell initGrid 0 0 = BLOCKED) :=
  ⟨claim_C10_initial_grid.2.1 (5, 5) (by decide),
   claim_C10_initial_grid.2.2 (0, 0) (by decide) (by decide)⟩

end HexPuzzle
